import Mathlib

/-!
# `move.cpp`: an owning byte buffer (`String`) and a container (`Entity`)

Shallow embedding of `src/src/move.cpp`.

* Objects are values; a member function that mutates an object it receives by
  reference returns the new value of that object next to its result.
* The free store, the standard output stream and a trace of memory events are
  fields of an explicit `World` that every operation threads through.
* `size_t` is a natural number reduced modulo `SIZE_MOD` wherever the source
  does arithmetic on it.
* A run either returns a value (`Outcome.ok`) or stops at the first undefined
  memory access (`Outcome.fault`), keeping the world reached at that point.
-/

namespace MoveCpp

/-! ## Machine model -/

/-- Number of values of `size_t` (LP64 target): arithmetic on `size_t` wraps modulo this. -/
def SIZE_MOD : Nat := 2 ^ 64

/-- One `char`. -/
abbrev Byte := Fin 256

/-- An array object of `char`: its size is representable in `size_t`. -/
structure Block where
  bytes : List Byte
  fits : bytes.length < SIZE_MOD

/-- A `char*` obtained from `new char[n]`: `none` is `nullptr`, `some a` is the start of
allocation number `a` of the free store. -/
abbrev Ptr := Option Nat

/-- Ways a run can leave defined behaviour. -/
inductive Fault where
  | null_deref
  | use_after_free
  | invalid_pointer
  | out_of_bounds
  | double_free
  | no_terminator
  deriving DecidableEq, Repr

/-- What the program did to the free store, in program order: `alloc a n` is a
`new char[n]` that returned allocation `a`, `free a` a `delete` that released it, and
`read a i` one indexed read `p[i]` of allocation `a`. -/
inductive MemEvent where
  | alloc (a n : Nat)
  | free (a : Nat)
  | read (a i : Nat)
  deriving DecidableEq, Repr

/-- Program state outside the objects themselves.

* `heap`: allocation table of the free store; entry `a` is `some b` while allocation `a` is
  live, `none` once it has been released; addresses are never handed out twice.
* `out`: every byte written to `std::cout` so far.
* `trace`: the memory events so far (a record only: no operation reads it).
* `fresh a i`: the indeterminate byte that allocation `a` holds at index `i` when `new`
  returns it. -/
structure World where
  heap : List (Option Block)
  out : List Byte
  trace : List MemEvent
  fresh : Nat → Nat → Byte

/-- State at program start: nothing allocated, nothing printed. -/
def World.init (fresh : Nat → Nat → Byte) : World :=
  { heap := [], out := [], trace := [], fresh := fresh }

/-- Result of running an operation. -/
inductive Outcome (α : Type) where
  | ok (val : α) (w : World)
  | fault (f : Fault) (w : World)

/-- An operation of the program: a function of the world. -/
def Exec (α : Type) : Type := World → Outcome α

/-- Return a value without touching the world. -/
def Exec.ret {α : Type} (a : α) : Exec α := fun w => Outcome.ok a w

/-- Sequencing: the second operation runs in the world the first one left; a fault stops
the run. -/
def Exec.seq {α β : Type} (m : Exec α) (f : α → Exec β) : Exec β := fun w =>
  match m w with
  | Outcome.ok a w1 => f a w1
  | Outcome.fault e w1 => Outcome.fault e w1

instance : Monad Exec where
  pure := Exec.ret
  bind := Exec.seq

/-- A string literal of the source text. -/
abbrev Literal := String

/-- Bytes of a string literal of the source (all literals are ASCII). -/
def lit (s : Literal) : List Byte :=
  s.toList.map (fun c => Fin.ofNat c.toNat)

/-- The newline character. -/
def NL : Byte := 10

/-- Source: `std::cout << c` for a `char`. -/
def cout_char (c : Byte) : Exec Unit := fun w =>
  Outcome.ok () { w with out := w.out ++ [c] }

/-- Source: `std::cout << "..."` for a string literal. -/
def cout_str (s : Literal) : Exec Unit := fun w =>
  Outcome.ok () { w with out := w.out ++ lit s }

/-- Source: `std::cout << std::endl` (newline, then flush). -/
def endl : Exec Unit := cout_char NL

/-- Initial contents of a fresh allocation of `n` bytes at address `a`. -/
def freshBytes (w : World) (a n : Nat) : List Byte :=
  (List.range n).map (w.fresh a)

/-- Source: `new char[n]`, `n` of type `size_t`. The allocation gets the next unused
address and indeterminate contents. Allocation failure is not modelled. -/
def new_char (n : Nat) : Exec Ptr := fun w =>
  Outcome.ok (some w.heap.length)
    { w with
      heap := w.heap ++
        [some ⟨freshBytes w w.heap.length (n % SIZE_MOD), by
          simp only [freshBytes, List.length_map, List.length_range]
          exact Nat.mod_lt _ (by decide)⟩]
      trace := w.trace ++ [MemEvent.alloc w.heap.length (n % SIZE_MOD)] }

/-- Source: `delete p`. A null pointer is ignored; a live allocation is released;
releasing twice, or releasing an address `new` never returned, is a fault.
(The source pairs `new char[]` with the non-array `delete`; for `char` both forms reach
the same deallocation, which is what is modelled.) -/
def delete (p : Ptr) : Exec Unit := fun w =>
  match p with
  | none => Outcome.ok () w
  | some a =>
    match w.heap[a]? with
    | some (some _) =>
      Outcome.ok () { w with heap := w.heap.set a none, trace := w.trace ++ [MemEvent.free a] }
    | some none => Outcome.fault Fault.double_free w
    | none => Outcome.fault Fault.invalid_pointer w

/-- Source: the indexed read `p[i]`. -/
def load (p : Ptr) (i : Nat) : Exec Byte := fun w =>
  match p with
  | none => Outcome.fault Fault.null_deref w
  | some a =>
    match w.heap[a]? with
    | some (some b) =>
      match b.bytes[i]? with
      | some c => Outcome.ok c { w with trace := w.trace ++ [MemEvent.read a i] }
      | none => Outcome.fault Fault.out_of_bounds w
    | some none => Outcome.fault Fault.use_after_free w
    | none => Outcome.fault Fault.invalid_pointer w

/-- The array a pointer refers to, as the source operand of a bulk copy. -/
def view (p : Ptr) : Exec (List Byte) := fun w =>
  match p with
  | none => Outcome.fault Fault.null_deref w
  | some a =>
    match w.heap[a]? with
    | some (some b) => Outcome.ok b.bytes w
    | some none => Outcome.fault Fault.use_after_free w
    | none => Outcome.fault Fault.invalid_pointer w

/-- Overwrite the first `n` bytes of a block with the first `n` bytes of `src`. -/
def Block.blit (b : Block) (src : List Byte) (n : Nat)
    (h : n ≤ src.length ∧ n ≤ b.bytes.length) : Block :=
  ⟨src.take n ++ b.bytes.drop n, by
    have := b.fits
    simp only [List.length_append, List.length_take, List.length_drop]
    omega⟩

/-- Source: `memcpy(dst, src, n)` with `src` the array the source pointer refers to.
A library call: its accesses are not entered in the trace. -/
def memcpy (dst : Ptr) (src : List Byte) (n : Nat) : Exec Unit := fun w =>
  match dst with
  | none => Outcome.fault Fault.null_deref w
  | some a =>
    match w.heap[a]? with
    | some (some b) =>
      if h : n ≤ src.length ∧ n ≤ b.bytes.length then
        Outcome.ok () { w with heap := w.heap.set a (some (b.blit src n h)) }
      else Outcome.fault Fault.out_of_bounds w
    | some none => Outcome.fault Fault.use_after_free w
    | none => Outcome.fault Fault.invalid_pointer w

/-- Replace the byte at index `i` of a block. -/
def Block.poke (b : Block) (i : Nat) (c : Byte) : Block :=
  ⟨b.bytes.set i c, by rw [List.length_set]; exact b.fits⟩

/-- The indexed write `p[i] = c`. The source never performs one; it is the memory model's
write, used to state that two buffers do not alias. -/
def store (p : Ptr) (i : Nat) (c : Byte) : Exec Unit := fun w =>
  match p with
  | none => Outcome.fault Fault.null_deref w
  | some a =>
    match w.heap[a]? with
    | some (some b) =>
      if i < b.bytes.length then
        Outcome.ok () { w with heap := w.heap.set a (some (b.poke i c)) }
      else Outcome.fault Fault.out_of_bounds w
    | some none => Outcome.fault Fault.use_after_free w
    | none => Outcome.fault Fault.invalid_pointer w

/-- Index of the first zero byte, if there is one. -/
def firstZero : List Byte → Option Nat
  | [] => none
  | c :: cs => if c = 0 then some 0 else (firstZero cs).map (· + 1)

/-- Source: `strlen(s)`, `s` pointing at the start of the array `s`. Running off the end
of the array without meeting a terminator is a fault. -/
def strlen (s : Block) : Exec Nat := fun w =>
  match firstZero s.bytes with
  | some k => Outcome.ok k w
  | none => Outcome.fault Fault.no_terminator w

/-! ## `class String` -/

/-- Source: the data members of `class String` (`size_t m_size; char* m_Data;`). The size
is kept as a natural number; arithmetic on it is reduced modulo `SIZE_MOD`
where it happens. -/
structure String where
  m_size : Nat
  m_Data : Ptr
  deriving DecidableEq, Repr

/-- Source: `String(const char* s)`. -/
def String.ctor (s : Block) : Exec String := do
  cout_str "Created!"
  endl
  let m_size ← strlen s
  let m_Data ← new_char ((m_size + 1) % SIZE_MOD)
  memcpy m_Data s.bytes m_size
  pure { m_size := m_size, m_Data := m_Data }

/-- Source: `String(const String& other)`. -/
def String.ctor_copy (other : String) : Exec String := do
  cout_str "Copied!"
  endl
  let m_size := other.m_size
  let m_Data ← new_char ((m_size + 1) % SIZE_MOD)
  let src ← view other.m_Data
  memcpy m_Data src m_size
  pure { m_size := m_size, m_Data := m_Data }

/-- Source: `String(String&& other)`. Returns the new object and `other` as the
constructor leaves it. -/
def String.ctor_move (other : String) : Exec (String × String) := do
  cout_str "Moved!"
  endl
  let m_size := other.m_size
  let m_Data := other.m_Data
  let other := { other with m_Data := none }
  pure ({ m_size := m_size, m_Data := m_Data }, other)

/-- Source: `~String()`. -/
def String.dtor (self : String) : Exec Unit := do
  cout_str "Destroyed!"
  endl
  delete self.m_Data

/-- Source: the loop `for (size_t i = 0; i < bound; i++) std::cout << m_Data[i];`, entered
at index `i` with `todo` iterations left. -/
def String.print_loop (m_Data : Ptr) (i : Nat) : (todo : Nat) → Exec Unit
  | 0 => pure ()
  | todo + 1 => do
    let c ← load m_Data i
    cout_char c
    String.print_loop m_Data (i + 1) todo

/-- Source: `String::print_data()`. The loop bound `m_size+1` is computed in `size_t`. -/
def String.print_data (self : String) : Exec Unit := do
  String.print_loop self.m_Data 0 ((self.m_size + 1) % SIZE_MOD)
  cout_str "\n"

/-! ## `class Entity` -/

/-- Source: the data member of `class Entity` (`String m_str;`). -/
structure Entity where
  m_str : String
  deriving DecidableEq, Repr

/-- Source: `Entity(const String& s) : m_str(s) {}`. -/
def Entity.ctor_copy (s : String) : Exec Entity := do
  let m_str ← String.ctor_copy s
  pure { m_str := m_str }

/-- Source: `Entity(String&& s) : m_str((String&&)s) {}`. Returns the new object and `s`
as the constructor leaves it. -/
def Entity.ctor_move (s : String) : Exec (Entity × String) := do
  let (m_str, s) ← String.ctor_move s
  pure ({ m_str := m_str }, s)

/-- Source: `~Entity() {}`: the empty body, then the member `m_str` is destroyed. -/
def Entity.dtor (self : Entity) : Exec Unit := do
  String.dtor self.m_str

/-- Source: `Entity::print_data()`. -/
def Entity.print_data (self : Entity) : Exec Unit := do
  String.print_data self.m_str

/-! ## `main` -/

/-- The array of the literal `"Henry"`: five characters and the terminator. -/
def Henry : Block := ⟨lit "Henry" ++ [0], by decide⟩

/-- Source: the declaration statement `Entity entity("Henry");`.

`"Henry"` is not a `String`, so either `Entity` constructor needs the converting
constructor `String(const char*)` to materialise a temporary `String`. The temporary is
an rvalue, and binding an rvalue reference to an rvalue is the better conversion, so
overload resolution selects `Entity(String&&)`. The temporary lives until the end of the
full-expression, i.e. it is destroyed when the declaration statement completes. -/
def main_declare_entity : Exec Entity := do
  let tmp ← String.ctor Henry
  let (entity, tmp) ← Entity.ctor_move tmp
  String.dtor tmp
  pure entity

/-- Source: `int main()`. The local `entity` is destroyed after the return value has been
fixed. -/
def main : Exec Int := do
  let entity ← main_declare_entity
  Entity.print_data entity
  cout_str "Hello world"
  endl
  let status : Int := 0
  Entity.dtor entity
  pure status

/-! ## Vocabulary of the specification -/

/-- The live block a pointer refers to: `none` for a null pointer, a released allocation or
an address that was never allocated. -/
def World.lookup (w : World) (p : Ptr) : Option Block :=
  match p with
  | none => none
  | some a =>
    match w.heap[a]? with
    | some (some b) => some b
    | _ => none

/-- A live `String`: `m_Data` points to a live allocation of exactly `m_size+1` bytes. -/
def Live (w : World) (s : String) : Prop :=
  match w.lookup s.m_Data with
  | some b => b.bytes.length = s.m_size + 1
  | none => False

instance (w : World) (s : String) : Decidable (Live w s) :=
  match h : w.lookup s.m_Data with
  | some b => decidable_of_iff (b.bytes.length = s.m_size + 1) (by simp [Live, h])
  | none => isFalse (by simp [Live, h])

/-- The buffer invariant of the specification: whenever `m_Data` is non-null it points to a
live allocation of exactly `m_size+1` bytes (whose first `m_size` bytes are the payload). -/
def Inv (w : World) (s : String) : Prop :=
  s.m_Data ≠ none → Live w s

instance (w : World) (s : String) : Decidable (Inv w s) := by
  unfold Inv; infer_instance

/-- The payload of a `String`: the first `m_size` bytes of its buffer. -/
def String.payload (w : World) (s : String) : Option (List Byte) :=
  (w.lookup s.m_Data).map (fun b => b.bytes.take s.m_size)

/-- The allocations owned by a list of `String`s: their non-null `m_Data`. -/
def owned (objs : List String) : List Nat :=
  objs.filterMap (fun s => s.m_Data)

/-- World in which a run ended. -/
def Outcome.world {α : Type} : Outcome α → World
  | Outcome.ok _ w => w
  | Outcome.fault _ w => w

/-- Whether a run returned normally. -/
def Outcome.isOk {α : Type} : Outcome α → Bool
  | Outcome.ok _ _ => true
  | Outcome.fault _ _ => false

/-- The lines of an output stream: the byte runs ended by a newline, plus a last
unterminated run when there is one. `cur` is the current line, most recent byte first. -/
def linesFrom : List Byte → List Byte → List (List Byte)
  | [], cur => if cur = [] then [] else [cur.reverse]
  | c :: cs, cur => if c = NL then cur.reverse :: linesFrom cs [] else linesFrom cs (c :: cur)

/-- Number of output lines equal to the given text. -/
def countLine (text : Literal) (out : List Byte) : Nat :=
  (linesFrom out []).count (lit text)

/-! ### Clients of the public interface

A configuration is a world together with the `String` objects whose lifetime has begun and
not yet ended (embedded ones included). A client can only act on it through the public
members of `String`; a member that faults ends the run. -/

/-- A world and the `String` objects alive in it. -/
structure Config where
  w : World
  objs : List String

/-- Configuration at program start. -/
def Config.init (fresh : Nat → Nat → Byte) : Config :=
  { w := World.init fresh, objs := [] }

/-- One use of a public member of `String`; `i` selects the object acted on. -/
inductive Op where
  | ctor (s : Block)
  | ctor_copy (i : Nat)
  | ctor_move (i : Nat)
  | dtor (i : Nat)
  | print_data (i : Nat)

/-- Effect of one public operation on a configuration; `none` when the selected object does
not exist or the member faults. A move puts the new object and the emptied source in front
of the remaining objects. -/
def Config.apply (c : Config) : Op → Option Config
  | Op.ctor s =>
    match String.ctor s c.w with
    | Outcome.ok t w1 => some { w := w1, objs := t :: c.objs }
    | Outcome.fault _ _ => none
  | Op.ctor_copy i =>
    match c.objs[i]? with
    | none => none
    | some o =>
      match String.ctor_copy o c.w with
      | Outcome.ok t w1 => some { w := w1, objs := t :: c.objs }
      | Outcome.fault _ _ => none
  | Op.ctor_move i =>
    match c.objs[i]? with
    | none => none
    | some o =>
      match String.ctor_move o c.w with
      | Outcome.ok (t, o1) w1 => some { w := w1, objs := t :: o1 :: c.objs.eraseIdx i }
      | Outcome.fault _ _ => none
  | Op.dtor i =>
    match c.objs[i]? with
    | none => none
    | some o =>
      match String.dtor o c.w with
      | Outcome.ok _ w1 => some { w := w1, objs := c.objs.eraseIdx i }
      | Outcome.fault _ _ => none
  | Op.print_data i =>
    match c.objs[i]? with
    | none => none
    | some o =>
      match String.print_data o c.w with
      | Outcome.ok _ w1 => some { w := w1, objs := c.objs }
      | Outcome.fault _ _ => none

/-- Effect of a sequence of public operations. -/
def Config.run (c : Config) : List Op → Option Config
  | [] => some c
  | op :: ops =>
    match c.apply op with
    | none => none
    | some c1 => c1.run ops

/-- A configuration some client can reach from program start. -/
def Reachable (c : Config) : Prop :=
  ∃ fresh ops, (Config.init fresh).run ops = some c

/-! ## Ownership discipline -/

/-- Two `String`s do not own the same allocation. -/
def Apart (s t : String) : Prop :=
  ∀ a, s.m_Data = some a → t.m_Data ≠ some a

/-- A well-formed configuration: every object has a size whose successor is representable in
`size_t` and satisfies the buffer invariant, and no allocation has two owners. -/
def Config.Good (c : Config) : Prop :=
  (∀ s ∈ c.objs, s.m_size + 1 < SIZE_MOD ∧ Inv c.w s) ∧ c.objs.Pairwise Apart

/-- Replay a trace of memory events against the list of live allocations: `none` when an
event touches an allocation that is not live (a read or a release after the release, or of
an address never allocated) or allocates a live address; otherwise the allocations that are
still live at the end. -/
def replay : List MemEvent → List Nat → Option (List Nat)
  | [], live => some live
  | MemEvent.alloc a _ :: es, live => if a ∈ live then none else replay es (a :: live)
  | MemEvent.free a :: es, live => if a ∈ live then replay es (live.erase a) else none
  | MemEvent.read a _ :: es, live => if a ∈ live then replay es live else none

/-! ## Sample data -/

/-- A world with one live allocation holding three bytes. -/
def demoWorld : World :=
  { heap := [some ⟨[72, 105, 33], by decide⟩], out := [],
    trace := [MemEvent.alloc 0 3], fresh := fun _ _ => 0 }

/-- A `String` of size 2 that owns allocation 0 of `demoWorld`. -/
def demoString : String := { m_size := 2, m_Data := some 0 }

/-- The configuration a client reaches by building a `String` from `"Henry"` and moving from
it (all indeterminate bytes being 0): the new owner, then the emptied source. -/
def demoConfig : Config :=
  { w := { heap := [some ⟨lit "Henry" ++ [0], by decide⟩],
           out := lit "Created!\n" ++ lit "Moved!\n",
           trace := [MemEvent.alloc 0 6],
           fresh := fun _ _ => 0 },
    objs := [{ m_size := 5, m_Data := some 0 }, { m_size := 5, m_Data := none }] }

/-- An array holding the text `"Hi"`, its terminator, and two more bytes. -/
def demoText : Block := ⟨lit "Hi" ++ 0 :: [33, 0], by decide⟩

/-! ## Basic facts about the machine model -/

theorem bind_run {α β : Type} (m : Exec α) (f : α → Exec β) (w : World) :
    (m >>= f) w = Exec.seq m f w := rfl

theorem pure_run {α : Type} (a : α) (w : World) :
    (pure a : Exec α) w = Outcome.ok a w := rfl

theorem lookup_eq_some {w : World} {p : Ptr} {b : Block} :
    w.lookup p = some b ↔ ∃ a, p = some a ∧ w.heap[a]? = some (some b) := by
  cases p with
  | none => simp [World.lookup]
  | some a =>
    simp only [World.lookup, Option.some.injEq, exists_eq_left']
    split <;> simp_all

theorem live_iff {w : World} {s : String} :
    Live w s ↔ ∃ a b, s.m_Data = some a ∧ w.heap[a]? = some (some b) ∧
      b.bytes.length = s.m_size + 1 := by
  unfold Live
  constructor
  · intro h
    split at h
    · rename_i b hb
      obtain ⟨a, ha, hh⟩ := lookup_eq_some.mp hb
      exact ⟨a, b, ha, hh, h⟩
    · exact h.elim
  · rintro ⟨a, b, ha, hh, hl⟩
    have : w.lookup s.m_Data = some b := lookup_eq_some.mpr ⟨a, ha, hh⟩
    rw [this]
    exact hl

theorem lookup_of_heap_eq {w w1 : World} (h : w1.heap = w.heap) (p : Ptr) :
    w1.lookup p = w.lookup p := by
  cases p <;> simp [World.lookup, h]

theorem live_of_heap_eq {w w1 : World} (h : w1.heap = w.heap) (s : String) :
    Live w1 s ↔ Live w s := by
  simp [Live, lookup_of_heap_eq h]

theorem ctor_move_run (other : String) (w : World) :
    String.ctor_move other w =
      Outcome.ok ({ m_size := other.m_size, m_Data := other.m_Data },
                  { m_size := other.m_size, m_Data := none })
        { w with out := w.out ++ lit "Moved!\n" } := by
  have : lit "Moved!\n" = lit "Moved!" ++ [NL] := by decide
  simp [String.ctor_move, bind_run, pure_run, Exec.seq, cout_str, endl, cout_char, this]

theorem dtor_null_run (n : Nat) (w : World) :
    String.dtor { m_size := n, m_Data := none } w =
      Outcome.ok () { w with out := w.out ++ lit "Destroyed!\n" } := by
  have : lit "Destroyed!\n" = lit "Destroyed!" ++ [NL] := by decide
  simp [String.dtor, bind_run, Exec.seq, cout_str, endl, cout_char, delete, this]

theorem dtor_live_run (s : String) (w : World) (a : Nat) (b : Block)
    (ha : s.m_Data = some a) (hb : w.heap[a]? = some (some b)) :
    String.dtor s w =
      Outcome.ok () { w with out := w.out ++ lit "Destroyed!\n",
                             heap := w.heap.set a none,
                             trace := w.trace ++ [MemEvent.free a] } := by
  have : lit "Destroyed!\n" = lit "Destroyed!" ++ [NL] := by decide
  simp [String.dtor, bind_run, Exec.seq, cout_str, endl, cout_char, delete, this, ha, hb]

theorem seq_ok {α β : Type} {m : Exec α} {f : α → Exec β} {w w1 : World} {a : α}
    (h : m w = Outcome.ok a w1) : (m >>= f) w = f a w1 := by
  simp [bind_run, Exec.seq, h]

theorem seq_fault {α β : Type} {m : Exec α} {f : α → Exec β} {w w1 : World} {e : Fault}
    (h : m w = Outcome.fault e w1) : (m >>= f) w = Outcome.fault e w1 := by
  simp [bind_run, Exec.seq, h]

/-! ### Primitive operations -/

theorem Block.ext {b1 b2 : Block} (h : b1.bytes = b2.bytes) : b1 = b2 := by
  cases b1; cases b2; cases h; rfl

theorem heap_index_lt {w : World} {a : Nat} {x : Option Block} (h : w.heap[a]? = some x) :
    a < w.heap.length := by
  by_contra hlt
  rw [List.getElem?_eq_none (Nat.le_of_not_lt hlt)] at h
  cases h

theorem freshBytes_length (w : World) (a n : Nat) : (freshBytes w a n).length = n := by
  simp [freshBytes]

theorem freshBytes_drop_last (w : World) (a n : Nat) :
    (freshBytes w a (n + 1)).drop n = [w.fresh a n] := by
  simp [freshBytes, List.range_succ]

theorem cout_str_run (s : Literal) (w : World) :
    cout_str s w = Outcome.ok () { w with out := w.out ++ lit s } := rfl

theorem endl_run (w : World) :
    endl w = Outcome.ok () { w with out := w.out ++ [NL] } := rfl

theorem new_char_run (n : Nat) (w : World) (hn : n < SIZE_MOD) :
    ∃ b : Block, b.bytes = freshBytes w w.heap.length n ∧
      new_char n w = Outcome.ok (some w.heap.length)
        { w with heap := w.heap ++ [some b],
                 trace := w.trace ++ [MemEvent.alloc w.heap.length n] } := by
  refine ⟨⟨freshBytes w w.heap.length n, by rw [freshBytes_length]; exact hn⟩, rfl, ?_⟩
  simp only [new_char, Nat.mod_eq_of_lt hn]

theorem view_run (a : Nat) (b : Block) (w : World) (hb : w.heap[a]? = some (some b)) :
    view (some a) w = Outcome.ok b.bytes w := by
  simp [view, hb]

theorem memcpy_last (h : List (Option Block)) (b : Block) (src : List Byte) (k : Nat)
    (w : World) (hw : w.heap = h ++ [some b]) (hk : k ≤ src.length) (hkb : k ≤ b.bytes.length) :
    ∃ b1 : Block, b1.bytes = src.take k ++ b.bytes.drop k ∧
      memcpy (some h.length) src k w = Outcome.ok () { w with heap := h ++ [some b1] } := by
  refine ⟨b.blit src k ⟨hk, hkb⟩, rfl, ?_⟩
  simp [memcpy, hw, hk, hkb]

theorem firstZero_append (T rest : List Byte) (hT : ∀ c ∈ T, c ≠ 0) :
    firstZero (T ++ 0 :: rest) = some T.length := by
  induction T with
  | nil => simp [firstZero]
  | cons c cs ih =>
    have hc : c ≠ 0 := hT c (List.mem_cons_self _ _)
    have ih1 := ih (fun x hx => hT x (List.mem_cons_of_mem _ hx))
    simp [firstZero, hc, ih1]

theorem firstZero_lt {l : List Byte} {k : Nat} (h : firstZero l = some k) : k < l.length := by
  induction l generalizing k with
  | nil => simp [firstZero] at h
  | cons c cs ih =>
    simp only [firstZero] at h
    split at h
    · cases h; simp
    · cases hz : firstZero cs with
      | none => simp [hz] at h
      | some j =>
        simp [hz] at h
        have := ih hz
        simp
        omega

theorem load_run (a i : Nat) (b : Block) (w : World) (hb : w.heap[a]? = some (some b))
    (hi : i < b.bytes.length) :
    load (some a) i w =
      Outcome.ok (b.bytes[i]) { w with trace := w.trace ++ [MemEvent.read a i] } := by
  simp [load, hb, List.getElem?_eq_getElem hi]

theorem print_loop_run (a : Nat) (b : Block) :
    ∀ (k i : Nat) (w : World), w.heap[a]? = some (some b) → i + k ≤ b.bytes.length →
      String.print_loop (some a) i k w =
        Outcome.ok () { w with out := w.out ++ (b.bytes.drop i).take k,
                               trace := w.trace ++ (List.range' i k).map (MemEvent.read a) } := by
  intro k
  induction k with
  | zero => intro i w _ _; simp [String.print_loop, pure_run]
  | succ k ih =>
    intro i w hb hik
    have hi : i < b.bytes.length := by omega
    have hstep := ih (i + 1)
      { w with out := w.out ++ [b.bytes[i]], trace := w.trace ++ [MemEvent.read a i] }
      hb (by omega)
    simp only [String.print_loop, bind_run, Exec.seq, load_run a i b w hb hi, cout_char, hstep]
    rw [List.drop_eq_getElem_cons hi, List.take_succ_cons, List.range'_succ]
    simp only [List.map_cons, List.append_assoc, List.singleton_append]

/-! ### The constructors -/

theorem strlen_run (s : Block) (k : Nat) (w : World) (hk : firstZero s.bytes = some k) :
    strlen s w = Outcome.ok k w := by
  simp [strlen, hk]

theorem ctor_run (s : Block) (k : Nat) (w : World) (hk : firstZero s.bytes = some k) :
    ∃ b : Block, b.bytes = s.bytes.take k ++ [w.fresh w.heap.length k] ∧
      String.ctor s w = Outcome.ok { m_size := k, m_Data := some w.heap.length }
        { w with out := w.out ++ lit "Created!\n",
                 heap := w.heap ++ [some b],
                 trace := w.trace ++ [MemEvent.alloc w.heap.length (k + 1)] } := by
  have hlt : k < s.bytes.length := firstZero_lt hk
  have hfit : k + 1 < SIZE_MOD := by have := s.fits; omega
  have hlit : lit "Created!\n" = lit "Created!" ++ [NL] := by decide
  let w1 : World := { w with out := w.out ++ lit "Created!\n" }
  obtain ⟨b0, hb0, hnew⟩ := new_char_run (k + 1) w1 hfit
  obtain ⟨b1, hb1, hcpy⟩ := memcpy_last w.heap b0 s.bytes k
    { w1 with heap := w.heap ++ [some b0],
              trace := w.trace ++ [MemEvent.alloc w.heap.length (k + 1)] } rfl
    (Nat.le_of_lt hlt) (by rw [hb0, freshBytes_length]; omega)
  refine ⟨b1, ?_, ?_⟩
  · rw [hb1, hb0]
    show _ ++ (freshBytes w w.heap.length (k + 1)).drop k = _
    rw [freshBytes_drop_last]
  · have h1 : cout_str "Created!" w = Outcome.ok () { w with out := w.out ++ lit "Created!" } :=
      rfl
    have h2 : endl { w with out := w.out ++ lit "Created!" } = Outcome.ok () w1 := by
      simp [endl, cout_char, w1, hlit]
    have h3 : strlen s w1 = Outcome.ok k w1 := strlen_run s k w1 hk
    have hmod : (k + 1) % SIZE_MOD = k + 1 := Nat.mod_eq_of_lt hfit
    unfold String.ctor
    rw [seq_ok h1, seq_ok h2, seq_ok h3, hmod, seq_ok hnew, seq_ok hcpy]
    rfl

theorem ctor_fault (s : Block) (w : World) (hk : firstZero s.bytes = none) :
    String.ctor s w =
      Outcome.fault Fault.no_terminator { w with out := w.out ++ lit "Created!\n" } := by
  have hlit : lit "Created!\n" = lit "Created!" ++ [NL] := by decide
  simp [String.ctor, bind_run, Exec.seq, cout_str, endl, cout_char, strlen, hk, hlit]

theorem ctor_copy_run (other : String) (a : Nat) (b : Block) (w : World)
    (ha : other.m_Data = some a) (hb : w.heap[a]? = some (some b))
    (hlen : b.bytes.length = other.m_size + 1) :
    ∃ b1 : Block,
      b1.bytes = b.bytes.take other.m_size ++ [w.fresh w.heap.length other.m_size] ∧
      String.ctor_copy other w =
        Outcome.ok { m_size := other.m_size, m_Data := some w.heap.length }
          { w with out := w.out ++ lit "Copied!\n",
                   heap := w.heap ++ [some b1],
                   trace := w.trace ++ [MemEvent.alloc w.heap.length (other.m_size + 1)] } := by
  have hfit : other.m_size + 1 < SIZE_MOD := by have := b.fits; omega
  have hlt : a < w.heap.length := heap_index_lt hb
  have hlit : lit "Copied!\n" = lit "Copied!" ++ [NL] := by decide
  let w1 : World := { w with out := w.out ++ lit "Copied!\n" }
  obtain ⟨b0, hb0, hnew⟩ := new_char_run (other.m_size + 1) w1 hfit
  let w2 : World := { w1 with heap := w.heap ++ [some b0],
                              trace := w.trace ++ [MemEvent.alloc w.heap.length (other.m_size + 1)] }
  have hb2 : w2.heap[a]? = some (some b) := by
    show (w.heap ++ [some b0])[a]? = _
    rw [List.getElem?_append_left hlt, hb]
  obtain ⟨b1, hb1, hcpy⟩ := memcpy_last w.heap b0 b.bytes other.m_size w2 rfl
    (by omega) (by rw [hb0, freshBytes_length]; omega)
  refine ⟨b1, ?_, ?_⟩
  · rw [hb1, hb0]
    show _ ++ (freshBytes w w.heap.length (other.m_size + 1)).drop other.m_size = _
    rw [freshBytes_drop_last]
  · have h1 : cout_str "Copied!" w = Outcome.ok () { w with out := w.out ++ lit "Copied!" } :=
      rfl
    have h2 : endl { w with out := w.out ++ lit "Copied!" } = Outcome.ok () w1 := by
      simp [endl, cout_char, w1, hlit]
    have h3 : view other.m_Data w2 = Outcome.ok b.bytes w2 := by
      rw [ha]; exact view_run a b w2 hb2
    have hmod : (other.m_size + 1) % SIZE_MOD = other.m_size + 1 := Nat.mod_eq_of_lt hfit
    unfold String.ctor_copy
    rw [seq_ok h1, seq_ok h2, hmod, seq_ok hnew, seq_ok h3, seq_ok hcpy]
    rfl

/-! ### Printing, writing and destroying -/

theorem print_data_run (s : String) (a : Nat) (b : Block) (w : World)
    (ha : s.m_Data = some a) (hb : w.heap[a]? = some (some b))
    (hlen : b.bytes.length = s.m_size + 1) :
    String.print_data s w =
      Outcome.ok () { w with out := w.out ++ b.bytes ++ [NL],
                             trace := w.trace ++
                               (List.range (s.m_size + 1)).map (MemEvent.read a) } := by
  have hfit : s.m_size + 1 < SIZE_MOD := by have := b.fits; omega
  have hloop := print_loop_run a b (s.m_size + 1) 0 w hb (by omega)
  have hnl : lit "\n" = [NL] := by decide
  unfold String.print_data
  rw [Nat.mod_eq_of_lt hfit, ha, seq_ok hloop, cout_str_run, hnl, ← hlen]
  simp [List.range_eq_range']

theorem print_data_null (s : String) (w : World) (h : s.m_Data = none)
    (hsz : s.m_size + 1 < SIZE_MOD) :
    String.print_data s w = Outcome.fault Fault.null_deref w := by
  unfold String.print_data
  rw [Nat.mod_eq_of_lt hsz, h]
  rfl

theorem lookup_store_ne (p q : Ptr) (i : Nat) (c : Byte) (w : World) (h : p ≠ q) :
    (store p i c w).world.lookup q = w.lookup q := by
  cases p with
  | none => rfl
  | some a =>
    cases q with
    | none => rfl
    | some a1 =>
      have hne : a ≠ a1 := fun e => h (by rw [e])
      simp only [store]
      split
      · split
        · simp [Outcome.world, World.lookup, List.getElem?_set_ne hne]
        · rfl
      · rfl
      · rfl

theorem store_run (a i : Nat) (c : Byte) (b : Block) (w : World)
    (hb : w.heap[a]? = some (some b)) (hi : i < b.bytes.length) :
    ∃ w1, store (some a) i c w = Outcome.ok () w1 ∧
      (w1.lookup (some a)).map Block.bytes = some (b.bytes.set i c) := by
  have hlt : a < w.heap.length := heap_index_lt hb
  refine ⟨_, by simp [store, hb, hi]; rfl, ?_⟩
  simp [World.lookup, List.getElem?_set_self hlt, Block.poke]

theorem lookup_dtor_ne (s : String) (q : Ptr) (w : World) (h : s.m_Data ≠ q) :
    (String.dtor s w).world.lookup q = w.lookup q := by
  cases hs : s.m_Data with
  | none =>
    have : s = { m_size := s.m_size, m_Data := none } := by cases s; simp_all
    rw [this, dtor_null_run]; rfl
  | some a =>
    cases q with
    | none => rfl
    | some a1 =>
      have hne : a ≠ a1 := fun e => h (by rw [hs, e])
      simp only [String.dtor, bind_run, Exec.seq, cout_str, endl, cout_char, delete, hs]
      split <;> simp [Outcome.world, World.lookup, List.getElem?_set_ne hne]

theorem live_of_lookup {w : World} {s : String} {b : Block}
    (h : w.lookup s.m_Data = some b) (hlen : b.bytes.length = s.m_size + 1) : Live w s := by
  simp [Live, h, hlen]

theorem lookup_append_old (w : World) (a : Nat) (b x : Block)
    (hb : w.heap[a]? = some (some b)) (w1 : World) (hw1 : w1.heap = w.heap ++ [some x]) :
    w1.lookup (some a) = some b := by
  have hlt : a < w.heap.length := heap_index_lt hb
  simp [World.lookup, hw1, List.getElem?_append_left hlt, hb]

theorem lookup_append_new (w : World) (x : Block) (w1 : World)
    (hw1 : w1.heap = w.heap ++ [some x]) :
    w1.lookup (some w.heap.length) = some x := by
  simp [World.lookup, hw1]

theorem ctor_copy_spec (other : String) (a : Nat) (b : Block) (w : World)
    (ha : other.m_Data = some a) (hb : w.heap[a]? = some (some b))
    (hlen : b.bytes.length = other.m_size + 1) :
    ∃ (b1 : Block) (w1 : World),
      b1.bytes = b.bytes.take other.m_size ++ [w.fresh w.heap.length other.m_size] ∧
      String.ctor_copy other w =
        Outcome.ok { m_size := other.m_size, m_Data := some w.heap.length } w1 ∧
      w1.heap = w.heap ++ [some b1] ∧ w1.out = w.out ++ lit "Copied!\n" ∧
      w1.trace = w.trace ++ [MemEvent.alloc w.heap.length (other.m_size + 1)] ∧
      w1.fresh = w.fresh := by
  obtain ⟨b1, hb1, hrun⟩ := ctor_copy_run other a b w ha hb hlen
  exact ⟨b1, _, hb1, hrun, rfl, rfl, rfl, rfl⟩

theorem ctor_spec (s : Block) (k : Nat) (w : World) (hk : firstZero s.bytes = some k) :
    ∃ (b : Block) (w1 : World),
      b.bytes = s.bytes.take k ++ [w.fresh w.heap.length k] ∧
      String.ctor s w = Outcome.ok { m_size := k, m_Data := some w.heap.length } w1 ∧
      w1.heap = w.heap ++ [some b] ∧ w1.out = w.out ++ lit "Created!\n" ∧
      w1.trace = w.trace ++ [MemEvent.alloc w.heap.length (k + 1)] ∧
      w1.fresh = w.fresh := by
  obtain ⟨b, hb, hrun⟩ := ctor_run s k w hk
  exact ⟨b, _, hb, hrun, rfl, rfl, rfl, rfl⟩
/-! ### Ownership and frame facts -/

theorem Apart.symm {s t : String} (h : Apart s t) : Apart t s := by
  intro a ht hs
  exact h a hs ht

theorem apart_of_null_left {s t : String} (h : s.m_Data = none) : Apart s t := by
  intro a ha
  rw [h] at ha
  cases ha

theorem pairwise_eraseIdx_apart {l : List String} (hl : l.Pairwise Apart) :
    ∀ (i : Nat) (o : String), l[i]? = some o → ∀ x ∈ l.eraseIdx i, Apart o x := by
  induction l with
  | nil => intro i o h; simp at h
  | cons y ys ih =>
    rw [List.pairwise_cons] at hl
    intro i o h x hx
    cases i with
    | zero =>
      simp at h
      subst h
      simp at hx
      exact hl.1 x hx
    | succ j =>
      simp at h
      simp at hx
      rcases hx with rfl | hx
      · exact (hl.1 o (List.getElem?_mem h)).symm
      · exact ih hl.2 j o h x hx

theorem load_heap (p : Ptr) (i : Nat) (w : World) : (load p i w).world.heap = w.heap := by
  unfold load
  split
  · rfl
  · split
    · split <;> rfl
    · rfl
    · rfl

theorem print_loop_heap (p : Ptr) :
    ∀ (k i : Nat) (w : World), (String.print_loop p i k w).world.heap = w.heap := by
  intro k
  induction k with
  | zero => intro i w; rfl
  | succ k ih =>
    intro i w
    simp only [String.print_loop, bind_run, Exec.seq]
    have hl := load_heap p i w
    cases hload : load p i w with
    | ok c w1 =>
      rw [hload] at hl
      simp only [cout_char]
      rw [ih]
      exact hl
    | fault e w1 =>
      rw [hload] at hl
      exact hl

theorem print_data_heap (s : String) (w : World) :
    (String.print_data s w).world.heap = w.heap := by
  simp only [String.print_data, bind_run, Exec.seq]
  have hl := print_loop_heap s.m_Data ((s.m_size + 1) % SIZE_MOD) 0 w
  cases hloop : String.print_loop s.m_Data 0 ((s.m_size + 1) % SIZE_MOD) w with
  | ok c w1 =>
    rw [hloop] at hl
    exact hl
  | fault e w1 =>
    rw [hloop] at hl
    exact hl

theorem ctor_copy_null (other : String) (w : World) (h : other.m_Data = none) :
    ∃ w1, String.ctor_copy other w = Outcome.fault Fault.null_deref w1 := by
  simp only [String.ctor_copy, bind_run, Exec.seq, cout_str, endl, cout_char, new_char, view, h]
  exact ⟨_, rfl⟩

theorem live_append {w w1 : World} {s : String} {x : Option Block} (h : Live w s)
    (hw1 : w1.heap = w.heap ++ [x]) : Live w1 s := by
  obtain ⟨a, b, ha, hb, hlen⟩ := live_iff.mp h
  have hlt : a < w.heap.length := heap_index_lt hb
  exact live_iff.mpr ⟨a, b, ha, by rw [hw1, List.getElem?_append_left hlt, hb], hlen⟩

theorem inv_append {w w1 : World} {s : String} {x : Option Block} (h : Inv w s)
    (hw1 : w1.heap = w.heap ++ [x]) : Inv w1 s :=
  fun hne => live_append (h hne) hw1

theorem inv_of_heap_eq {w w1 : World} (h : w1.heap = w.heap) {s : String} (hs : Inv w s) :
    Inv w1 s :=
  fun hne => (live_of_heap_eq h s).mpr (hs hne)

theorem not_owner_of_next {w : World} {s : String} (h : Inv w s) :
    s.m_Data ≠ some w.heap.length := by
  intro hs
  obtain ⟨a, b, ha, hb, -⟩ := live_iff.mp (h (by rw [hs]; simp))
  have hlt : a < w.heap.length := heap_index_lt hb
  rw [hs] at ha
  cases ha
  omega
/-! ### Every reachable configuration is well formed -/

theorem ctor_ok_spec {s : Block} {w w1 : World} {t : String}
    (h : String.ctor s w = Outcome.ok t w1) :
    ∃ (k : Nat) (b : Block), firstZero s.bytes = some k ∧
      t = { m_size := k, m_Data := some w.heap.length } ∧
      b.bytes = s.bytes.take k ++ [w.fresh w.heap.length k] ∧
      w1.heap = w.heap ++ [some b] ∧ w1.out = w.out ++ lit "Created!\n" ∧
      w1.trace = w.trace ++ [MemEvent.alloc w.heap.length (k + 1)] := by
  cases hk : firstZero s.bytes with
  | none => rw [ctor_fault s w hk] at h; cases h
  | some k =>
    obtain ⟨b, w2, hb, hrun, hheap, hout, htrace, -⟩ := ctor_spec s k w hk
    rw [hrun] at h
    cases h
    exact ⟨k, b, rfl, rfl, hb, hheap, hout, htrace⟩

theorem ctor_copy_ok_spec {o : String} {w w1 : World} {t : String} (hinv : Inv w o)
    (h : String.ctor_copy o w = Outcome.ok t w1) :
    ∃ (a : Nat) (b b1 : Block), o.m_Data = some a ∧ w.heap[a]? = some (some b) ∧
      b.bytes.length = o.m_size + 1 ∧
      t = { m_size := o.m_size, m_Data := some w.heap.length } ∧
      b1.bytes = b.bytes.take o.m_size ++ [w.fresh w.heap.length o.m_size] ∧
      w1.heap = w.heap ++ [some b1] ∧ w1.out = w.out ++ lit "Copied!\n" ∧
      w1.trace = w.trace ++ [MemEvent.alloc w.heap.length (o.m_size + 1)] := by
  cases hd : o.m_Data with
  | none =>
    obtain ⟨w2, hf⟩ := ctor_copy_null o w hd
    rw [hf] at h; cases h
  | some a0 =>
    obtain ⟨a, b, ha, hb, hlen⟩ := live_iff.mp (hinv (by rw [hd]; simp))
    obtain ⟨b1, w2, hb1, hrun, hheap, hout, htrace, -⟩ := ctor_copy_spec o a b w ha hb hlen
    rw [hrun] at h
    cases h
    rw [hd] at ha
    cases ha
    exact ⟨a0, b, b1, rfl, hb, hlen, rfl, hb1, hheap, hout, htrace⟩

theorem live_fresh_object (w w1 : World) (n : Nat) (b : Block)
    (hheap : w1.heap = w.heap ++ [some b]) (hlen : b.bytes.length = n + 1) :
    Live w1 { m_size := n, m_Data := some w.heap.length } :=
  live_of_lookup (lookup_append_new w b w1 hheap) hlen

theorem good_cons_fresh (c : Config) (hc : c.Good) (w1 : World) (n : Nat) (b : Block)
    (hheap : w1.heap = c.w.heap ++ [some b]) (hlen : b.bytes.length = n + 1) :
    Config.Good { w := w1, objs := { m_size := n, m_Data := some c.w.heap.length } :: c.objs } := by
  obtain ⟨hobjs, hpw⟩ := hc
  constructor
  · intro s hs
    rcases List.mem_cons.mp hs with rfl | hs
    · refine ⟨?_, fun _ => live_fresh_object c.w w1 n b hheap hlen⟩
      have := b.fits
      show n + 1 < SIZE_MOD
      omega
    · exact ⟨(hobjs s hs).1, inv_append (hobjs s hs).2 hheap⟩
  · rw [List.pairwise_cons]
    refine ⟨fun x hx a ha hxa => ?_, hpw⟩
    have h1 : a = c.w.heap.length := by
      have : some c.w.heap.length = some a := ha
      cases this; rfl
    subst h1
    exact not_owner_of_next (hobjs x hx).2 hxa

theorem good_ctor (c : Config) (hc : c.Good) (s : Block) (t : String) (w1 : World)
    (h : String.ctor s c.w = Outcome.ok t w1) :
    Config.Good { w := w1, objs := t :: c.objs } := by
  obtain ⟨k, b, hk, rfl, hb, hheap, -, -⟩ := ctor_ok_spec h
  have hlt := firstZero_lt hk
  exact good_cons_fresh c hc w1 k b hheap (by rw [hb]; simp; omega)

theorem good_ctor_copy (c : Config) (hc : c.Good) (o : String) (ho : o ∈ c.objs)
    (t : String) (w1 : World) (h : String.ctor_copy o c.w = Outcome.ok t w1) :
    Config.Good { w := w1, objs := t :: c.objs } := by
  obtain ⟨a, b, b1, -, -, hlen, rfl, hb1, hheap, -, -⟩ := ctor_copy_ok_spec (hc.1 o ho).2 h
  exact good_cons_fresh c hc w1 o.m_size b1 hheap (by rw [hb1]; simp; omega)

theorem good_ctor_move (c : Config) (hc : c.Good) (i : Nat) (o : String)
    (ho : c.objs[i]? = some o) (t o1 : String) (w1 : World)
    (h : String.ctor_move o c.w = Outcome.ok (t, o1) w1) :
    Config.Good { w := w1, objs := t :: o1 :: c.objs.eraseIdx i } := by
  rw [ctor_move_run] at h
  cases h
  obtain ⟨hobjs, hpw⟩ := hc
  have hmem : o ∈ c.objs := List.getElem?_mem ho
  have hsub : ∀ x ∈ c.objs.eraseIdx i, x ∈ c.objs :=
    fun x hx => (List.eraseIdx_sublist c.objs i).subset hx
  have hheap : ({ c.w with out := c.w.out ++ lit "Moved!\n" } : World).heap = c.w.heap := rfl
  constructor
  · intro s hs
    rcases List.mem_cons.mp hs with rfl | hs
    · exact ⟨(hobjs o hmem).1, inv_of_heap_eq hheap (hobjs o hmem).2⟩
    · rcases List.mem_cons.mp hs with rfl | hs
      · exact ⟨(hobjs o hmem).1, fun hne => (hne rfl).elim⟩
      · exact ⟨(hobjs s (hsub s hs)).1, inv_of_heap_eq hheap (hobjs s (hsub s hs)).2⟩
  · rw [List.pairwise_cons, List.pairwise_cons]
    refine ⟨fun x hx => ?_, fun x _ => apart_of_null_left rfl,
      hpw.sublist (List.eraseIdx_sublist c.objs i)⟩
    rcases List.mem_cons.mp hx with rfl | hx
    · exact (apart_of_null_left rfl : Apart _ _).symm
    · exact pairwise_eraseIdx_apart hpw i o ho x hx

theorem good_dtor (c : Config) (hc : c.Good) (i : Nat) (o : String)
    (ho : c.objs[i]? = some o) (w1 : World)
    (h : String.dtor o c.w = Outcome.ok () w1) :
    Config.Good { w := w1, objs := c.objs.eraseIdx i } := by
  obtain ⟨hobjs, hpw⟩ := hc
  have hsub : ∀ x ∈ c.objs.eraseIdx i, x ∈ c.objs :=
    fun x hx => (List.eraseIdx_sublist c.objs i).subset hx
  refine ⟨fun s hs => ⟨(hobjs s (hsub s hs)).1, fun hne => ?_⟩,
    hpw.sublist (List.eraseIdx_sublist c.objs i)⟩
  have hlive : Live c.w s := (hobjs s (hsub s hs)).2 hne
  have hap : Apart o s := pairwise_eraseIdx_apart hpw i o ho s hs
  have hneq : o.m_Data ≠ s.m_Data := by
    intro heq
    cases hs1 : s.m_Data with
    | none => exact hne hs1
    | some a => exact hap a (by rw [heq, hs1]) hs1
  have hl := lookup_dtor_ne o s.m_Data c.w hneq
  rw [h] at hl
  unfold Live at hlive ⊢
  rw [show w1.lookup s.m_Data = c.w.lookup s.m_Data from hl]
  exact hlive

theorem good_print_data (c : Config) (hc : c.Good) (o : String) (w1 : World)
    (h : String.print_data o c.w = Outcome.ok () w1) :
    Config.Good { w := w1, objs := c.objs } := by
  have hheap : w1.heap = c.w.heap := by
    have := print_data_heap o c.w
    rw [h] at this
    exact this
  exact ⟨fun s hs => ⟨(hc.1 s hs).1, inv_of_heap_eq hheap (hc.1 s hs).2⟩, hc.2⟩

theorem good_apply (c c1 : Config) (hc : c.Good) (op : Op) (h : c.apply op = some c1) :
    c1.Good := by
  cases op with
  | ctor s =>
    simp only [Config.apply] at h
    split at h
    · cases h; exact good_ctor c hc s _ _ (by assumption)
    · cases h
  | ctor_copy i =>
    simp only [Config.apply] at h
    split at h
    · cases h
    · rename_i o ho
      split at h
      · cases h; exact good_ctor_copy c hc o (List.getElem?_mem ho) _ _ (by assumption)
      · cases h
  | ctor_move i =>
    simp only [Config.apply] at h
    split at h
    · cases h
    · rename_i o ho
      split at h
      · cases h; exact good_ctor_move c hc i o ho _ _ _ (by assumption)
      · cases h
  | dtor i =>
    simp only [Config.apply] at h
    split at h
    · cases h
    · rename_i o ho
      split at h
      · cases h; exact good_dtor c hc i o ho _ (by assumption)
      · cases h
  | print_data i =>
    simp only [Config.apply] at h
    split at h
    · cases h
    · rename_i o ho
      split at h
      · cases h; exact good_print_data c hc o _ (by assumption)
      · cases h

theorem good_run (ops : List Op) : ∀ (c c1 : Config), c.Good → c.run ops = some c1 → c1.Good := by
  induction ops with
  | nil => intro c c1 hc h; simp only [Config.run] at h; cases h; exact hc
  | cons op ops ih =>
    intro c c1 hc h
    simp only [Config.run] at h
    split at h
    · cases h
    · rename_i c2 hc2
      exact ih c2 c1 (good_apply c c2 hc op hc2) h

theorem good_init (fresh : Nat → Nat → Byte) : (Config.init fresh).Good :=
  ⟨fun _ hs => by simp [Config.init] at hs, by simp [Config.init]⟩

theorem reachable_good {c : Config} (h : Reachable c) : c.Good := by
  obtain ⟨fresh, ops, hrun⟩ := h
  exact good_run ops _ c (good_init fresh) hrun
/-! ### The run of `main` -/

theorem entity_ctor_move_run (s : String) (w : World) :
    Entity.ctor_move s w =
      Outcome.ok ({ m_str := { m_size := s.m_size, m_Data := s.m_Data } },
                  { m_size := s.m_size, m_Data := none })
        { w with out := w.out ++ lit "Moved!\n" } := by
  unfold Entity.ctor_move
  rw [seq_ok (ctor_move_run s w)]
  rfl

theorem henry_firstZero : firstZero Henry.bytes = some 5 := by decide

theorem henry_take : Henry.bytes.take 5 = lit "Henry" := by decide

theorem main_declare_entity_run (fresh : Nat → Nat → Byte) :
    ∃ b : Block, b.bytes = lit "Henry" ++ [fresh 0 5] ∧
      main_declare_entity (World.init fresh) =
        Outcome.ok { m_str := { m_size := 5, m_Data := some 0 } }
          { heap := [some b],
            out := lit "Created!\n" ++ lit "Moved!\n" ++ lit "Destroyed!\n",
            trace := [MemEvent.alloc 0 6], fresh := fresh } := by
  obtain ⟨b, hb, hctor⟩ := ctor_run Henry 5 (World.init fresh) henry_firstZero
  refine ⟨b, by rw [hb, henry_take]; rfl, ?_⟩
  unfold main_declare_entity
  rw [seq_ok hctor, seq_ok (entity_ctor_move_run _ _)]
  simp only []
  rw [seq_ok (dtor_null_run _ _)]
  rfl

theorem main_run (fresh : Nat → Nat → Byte) :
    main (World.init fresh) =
      Outcome.ok 0
        { heap := [none],
          out := lit "Created!\n" ++ lit "Moved!\n" ++ lit "Destroyed!\n" ++
            (lit "Henry" ++ [fresh 0 5]) ++ [NL] ++ lit "Hello world" ++ [NL] ++
            lit "Destroyed!\n",
          trace := [MemEvent.alloc 0 6, MemEvent.read 0 0, MemEvent.read 0 1,
            MemEvent.read 0 2, MemEvent.read 0 3, MemEvent.read 0 4, MemEvent.read 0 5,
            MemEvent.free 0],
          fresh := fresh } := by
  obtain ⟨b, hb, hdecl⟩ := main_declare_entity_run fresh
  have hlen : b.bytes.length = 5 + 1 := by rw [hb]; simp [lit]
  have hprint := print_data_run { m_size := 5, m_Data := some 0 } 0 b
    { heap := [some b], out := lit "Created!\n" ++ lit "Moved!\n" ++ lit "Destroyed!\n",
      trace := [MemEvent.alloc 0 6], fresh := fresh } rfl rfl hlen
  have hdtor := dtor_live_run { m_size := 5, m_Data := some 0 }
    { heap := [some b],
      out := lit "Created!\n" ++ lit "Moved!\n" ++ lit "Destroyed!\n" ++ b.bytes ++ [NL] ++
        lit "Hello world" ++ [NL],
      trace := [MemEvent.alloc 0 6] ++ (List.range (5 + 1)).map (MemEvent.read 0),
      fresh := fresh } 0 b rfl rfl
  unfold main
  rw [seq_ok hdecl]
  unfold Entity.print_data
  rw [seq_ok hprint, seq_ok (cout_str_run _ _), seq_ok (endl_run _)]
  unfold Entity.dtor
  rw [seq_ok hdtor, pure_run, hb]
  rfl
theorem main_out_eq (j : Byte) :
    lit "Created!\n" ++ lit "Moved!\n" ++ lit "Destroyed!\n" ++ (lit "Henry" ++ [j]) ++ [NL] ++
      lit "Hello world" ++ [NL] ++ lit "Destroyed!\n" =
    lit "Created!\nMoved!\nDestroyed!\nHenry" ++ [j] ++ lit "\nHello world\nDestroyed!\n" := by
  have h1 : lit "Created!\n" ++ lit "Moved!\n" ++ lit "Destroyed!\n" ++ lit "Henry" =
      lit "Created!\nMoved!\nDestroyed!\nHenry" := by decide
  have h2 : [NL] ++ lit "Hello world" ++ [NL] ++ lit "Destroyed!\n" =
      lit "\nHello world\nDestroyed!\n" := by decide
  rw [← h1, ← h2]
  simp only [List.append_assoc]

theorem linesFrom_line (l rest cur : List Byte) (hl : ∀ c ∈ l, c ≠ NL) :
    linesFrom (l ++ NL :: rest) cur = (cur.reverse ++ l) :: linesFrom rest [] := by
  induction l generalizing cur with
  | nil => simp [linesFrom]
  | cons c cs ih =>
    have hc : c ≠ NL := hl c (List.mem_cons_self _ _)
    have := ih (c :: cur) (fun x hx => hl x (List.mem_cons_of_mem _ hx))
    simp [linesFrom, hc, this]

theorem linesFrom_nl (rest cur : List Byte) :
    linesFrom (NL :: rest) cur = cur.reverse :: linesFrom rest [] := by
  simp [linesFrom]

set_option maxRecDepth 8192 in
theorem main_lines (j : Byte) :
    linesFrom (lit "Created!\nMoved!\nDestroyed!\nHenry" ++ [j] ++
      lit "\nHello world\nDestroyed!\n") [] =
    if j = NL then
      [lit "Created!", lit "Moved!", lit "Destroyed!", lit "Henry", [], lit "Hello world",
        lit "Destroyed!"]
    else
      [lit "Created!", lit "Moved!", lit "Destroyed!", lit "Henry" ++ [j], lit "Hello world",
        lit "Destroyed!"] := by
  have e : lit "Created!\nMoved!\nDestroyed!\nHenry" ++ [j] ++
      lit "\nHello world\nDestroyed!\n" =
      lit "Created!" ++ NL :: (lit "Moved!" ++ NL :: (lit "Destroyed!" ++ NL ::
        (lit "Henry" ++ j :: NL :: (lit "Hello world" ++ NL ::
          (lit "Destroyed!" ++ NL :: []))))) := by
    have h1 : lit "Created!\nMoved!\nDestroyed!\nHenry" =
      lit "Created!" ++ NL :: (lit "Moved!" ++ NL :: (lit "Destroyed!" ++ NL :: lit "Henry")) := by
      decide
    have h2 : lit "\nHello world\nDestroyed!\n" =
      NL :: (lit "Hello world" ++ NL :: (lit "Destroyed!" ++ NL :: [])) := by decide
    rw [h1, h2]
    simp
  have n1 : ∀ c ∈ lit "Created!", c ≠ NL := by decide
  have n2 : ∀ c ∈ lit "Moved!", c ≠ NL := by decide
  have n3 : ∀ c ∈ lit "Destroyed!", c ≠ NL := by decide
  have n4 : ∀ c ∈ lit "Henry", c ≠ NL := by decide
  have n5 : ∀ c ∈ lit "Hello world", c ≠ NL := by decide
  rw [e, linesFrom_line _ _ _ n1, linesFrom_line _ _ _ n2, linesFrom_line _ _ _ n3]
  by_cases hj : j = NL
  · subst hj
    rw [linesFrom_line _ _ _ n4, linesFrom_nl, linesFrom_line _ _ _ n5,
      linesFrom_line _ _ _ n3]
    simp [linesFrom]
  · have n6 : ∀ c ∈ lit "Henry" ++ [j], c ≠ NL := by
      intro c hc
      rcases List.mem_append.mp hc with h | h
      · exact n4 c h
      · rw [List.mem_singleton.mp h]; exact hj
    have e2 : lit "Henry" ++ j :: NL :: (lit "Hello world" ++ NL :: (lit "Destroyed!" ++ [NL])) =
        (lit "Henry" ++ [j]) ++ NL :: (lit "Hello world" ++ NL :: (lit "Destroyed!" ++ [NL])) := by
      simp
    rw [e2, linesFrom_line _ _ _ n6, linesFrom_line _ _ _ n5, linesFrom_line _ _ _ n3]
    simp [linesFrom, hj]

theorem main_counts (j : Byte) :
    countLine "Created!" (lit "Created!\nMoved!\nDestroyed!\nHenry" ++ [j] ++
      lit "\nHello world\nDestroyed!\n") = 1 ∧
    countLine "Copied!" (lit "Created!\nMoved!\nDestroyed!\nHenry" ++ [j] ++
      lit "\nHello world\nDestroyed!\n") = 0 ∧
    countLine "Moved!" (lit "Created!\nMoved!\nDestroyed!\nHenry" ++ [j] ++
      lit "\nHello world\nDestroyed!\n") = 1 ∧
    countLine "Destroyed!" (lit "Created!\nMoved!\nDestroyed!\nHenry" ++ [j] ++
      lit "\nHello world\nDestroyed!\n") = 2 := by
  have hH : ∀ t : List Byte, t.head? ≠ some 72 → (lit "Henry" ++ [j] == t) = false := by
    intro t ht
    cases t with
    | nil => rfl
    | cons c cs =>
      have : (72 : Byte) ≠ c := fun h => ht (by rw [← h]; rfl)
      have e : lit "Henry" ++ [j] = 72 :: (lit "enry" ++ [j]) := rfl
      rw [e]
      simp [this]
  unfold countLine
  rw [main_lines]
  by_cases hj : j = NL
  · simp only [hj, if_true]
    decide
  · simp only [hj, if_false]
    simp only [List.count_cons, List.count_nil, hH _ (by decide : (lit "Created!").head? ≠ some 72),
      hH _ (by decide : (lit "Copied!").head? ≠ some 72),
      hH _ (by decide : (lit "Moved!").head? ≠ some 72),
      hH _ (by decide : (lit "Destroyed!").head? ≠ some 72)]
    decide
theorem demoConfig_reachable : Reachable demoConfig := by
  refine ⟨fun _ _ => 0, [Op.ctor Henry, Op.ctor_move 0], ?_⟩
  obtain ⟨b, hb, hctor⟩ := ctor_run Henry 5 (World.init (fun _ _ => 0)) henry_firstZero
  have hb1 : b = ⟨lit "Henry" ++ [0], by decide⟩ := Block.ext (by rw [hb, henry_take]; rfl)
  subst hb1
  simp only [Config.run, Config.apply, Config.init, hctor, List.getElem?_cons_zero,
    ctor_move_run]
  rfl

theorem print_data_ok_iff (w : World) (s : String) (hsz : s.m_size + 1 < SIZE_MOD)
    (hinv : Inv w s) :
    (String.print_data s w).isOk = true ↔ s.m_Data ≠ none := by
  constructor
  · intro hok hnull
    rw [print_data_null s w hnull hsz] at hok
    cases hok
  · intro hne
    obtain ⟨a, b, ha, hb, hlen⟩ := live_iff.mp (hinv hne)
    rw [print_data_run s a b w ha hb hlen]
    rfl

theorem payload_of_lookup {w : World} {s : String} {b : Block}
    (h : w.lookup s.m_Data = some b) : s.payload w = some (b.bytes.take s.m_size) := by
  simp [String.payload, h]

/-! ## The claims -/

/-- Claim C1, as the code has it. For every choice of the indeterminate bytes, running `main`
returns 0 and writes exactly: `Created!` (the temporary built from the literal), `Moved!`
(the temporary binds to `Entity(String&&)`, which move-constructs the embedded buffer),
`Destroyed!` (the emptied temporary, destroyed when the declaration statement completes,
while the embedded buffer stays live), then `Henry` followed by the byte the allocation held
at index 5 and a newline, then `Hello world`, and at exit one more `Destroyed!` (the embedded
buffer). There is no `Copied!` line anywhere. -/
theorem C1_main_output (fresh : Nat → Nat → Byte) :
    ∃ (e : Entity) (w1 w5 : World),
      main_declare_entity (World.init fresh) = Outcome.ok e w1 ∧
      w1.out = lit "Created!\nMoved!\nDestroyed!\n" ∧ Live w1 e.m_str ∧
      main (World.init fresh) = Outcome.ok 0 w5 ∧
      w5.out = lit "Created!\nMoved!\nDestroyed!\nHenry" ++ [fresh 0 5] ++
        lit "\nHello world\nDestroyed!\n" ∧
      countLine "Created!" w5.out = 1 ∧ countLine "Copied!" w5.out = 0 ∧
      countLine "Moved!" w5.out = 1 ∧ countLine "Destroyed!" w5.out = 2 := by
  obtain ⟨b, hb, hdecl⟩ := main_declare_entity_run fresh
  have hout := main_out_eq (fresh 0 5)
  have hcount := main_counts (fresh 0 5)
  refine ⟨_, _, _, hdecl, ?_, ?_, main_run fresh, hout, ?_, ?_, ?_, ?_⟩
  · show lit "Created!\n" ++ lit "Moved!\n" ++ lit "Destroyed!\n" =
      lit "Created!\nMoved!\nDestroyed!\n"
    decide
  · exact live_iff.mpr ⟨0, b, rfl, rfl, by rw [hb]; simp [lit]⟩
  · show countLine "Created!" (_ ++ _) = 1
    rw [hout]; exact hcount.1
  · show countLine "Copied!" (_ ++ _) = 0
    rw [hout]; exact hcount.2.1
  · show countLine "Moved!" (_ ++ _) = 1
    rw [hout]; exact hcount.2.2.1
  · show countLine "Destroyed!" (_ ++ _) = 2
    rw [hout]; exact hcount.2.2.2

/-- Claim C1 as stated fails: with every indeterminate byte equal to 0, the output of `main`
is not `Created!`, `Copied!`, `Henry` plus one byte, `Hello world`, `Destroyed!`,
`Destroyed!`, whatever the trailing byte is. -/
theorem C1_counterexample :
    ¬ ∃ (j : Byte) (w : World), main (World.init (fun _ _ => 0)) = Outcome.ok 0 w ∧
      w.out = lit "Created!\nCopied!\nHenry" ++ [j] ++
        lit "\nHello world\nDestroyed!\nDestroyed!\n" := by
  rintro ⟨j, w, hrun, hout⟩
  rw [main_run] at hrun
  cases hrun
  have h9 := congrArg (fun l : List Byte => l[9]?) hout
  have h9' : (some 77 : Option Byte) = some 67 := h9
  exact absurd h9' (by decide)

/-- Claim C2. Move-constructing `B2` from a live `B1` of size `n` whose data points at
allocation `p` returns with `B2.m_size = n`, `B2.m_Data = p` and the source left with a null
`m_Data`; the output grows by exactly the line `Moved!`; the free store is unchanged and no
memory event happens (no allocation, no copy), so `B2` is live on the allocation of `B1`. -/
theorem C2_move_takes_the_allocation (w : World) (B1 : String) (n p : Nat)
    (hn : B1.m_size = n) (hp : B1.m_Data = some p) (hlive : Live w B1) :
    ∃ (B2 B1' : String) (w1 : World), String.ctor_move B1 w = Outcome.ok (B2, B1') w1 ∧
      B2.m_size = n ∧ B2.m_Data = some p ∧ B1'.m_Data = none ∧
      w1.out = w.out ++ lit "Moved!\n" ∧
      w1.heap = w.heap ∧ w1.trace = w.trace ∧ Live w1 B2 := by
  refine ⟨_, _, _, ctor_move_run B1 w, hn, hp, rfl, rfl, rfl, rfl, ?_⟩
  have h : Live w { m_size := B1.m_size, m_Data := B1.m_Data } := hlive
  exact (live_of_heap_eq rfl _).mpr h

/-- The move of `demoString` in `demoWorld`: the hypotheses of the previous theorem hold
there. -/
theorem C2_witness :
    demoString.m_size = 2 ∧ demoString.m_Data = some 0 ∧ Live demoWorld demoString ∧
    ∃ (B2 B1' : String) (w1 : World),
      String.ctor_move demoString demoWorld = Outcome.ok (B2, B1') w1 ∧
      B2.m_size = 2 ∧ B2.m_Data = some 0 ∧ B1'.m_Data = none ∧
      w1.out = demoWorld.out ++ lit "Moved!\n" ∧
      w1.heap = demoWorld.heap ∧ w1.trace = demoWorld.trace ∧ Live w1 B2 :=
  ⟨rfl, rfl, by decide,
    C2_move_takes_the_allocation demoWorld demoString 2 0 rfl rfl (by decide)⟩

/-- Claim C3. After move-constructing `B2` from a live `B1` (data at allocation `p`), the two
objects own exactly one allocation between them, `p`, and the free store is as before.
Destroying the moved-from `B1` prints `Destroyed!` and releases nothing. Destroying both, in
either order, returns normally and releases `p` exactly once: the only memory event is one
`free p`, and `p` is the only entry of the free store that changes. -/
theorem C3_moved_from_releases_nothing (w : World) (B1 : String) (hlive : Live w B1) :
    ∃ (p : Nat) (B2 B1' : String) (w1 : World), B1.m_Data = some p ∧
      String.ctor_move B1 w = Outcome.ok (B2, B1') w1 ∧
      owned [B1', B2] = [p] ∧ w1.heap = w.heap ∧
      (∃ w2, String.dtor B1' w1 = Outcome.ok () w2 ∧
        w2.out = w1.out ++ lit "Destroyed!\n" ∧ w2.heap = w1.heap ∧ w2.trace = w1.trace) ∧
      (∃ w3, (String.dtor B1' >>= fun _ => String.dtor B2) w1 = Outcome.ok () w3 ∧
        w3.heap = w.heap.set p none ∧ w3.trace = w.trace ++ [MemEvent.free p] ∧
        w3.out = w1.out ++ lit "Destroyed!\n" ++ lit "Destroyed!\n") ∧
      (∃ w3, (String.dtor B2 >>= fun _ => String.dtor B1') w1 = Outcome.ok () w3 ∧
        w3.heap = w.heap.set p none ∧ w3.trace = w.trace ++ [MemEvent.free p] ∧
        w3.out = w1.out ++ lit "Destroyed!\n" ++ lit "Destroyed!\n") := by
  obtain ⟨p, b, hp, hb, -⟩ := live_iff.mp hlive
  refine ⟨p, _, _, _, hp, ctor_move_run B1 w, ?_, rfl, ?_, ?_, ?_⟩
  · simp [owned, hp]
  · exact ⟨_, dtor_null_run _ _, rfl, rfl, rfl⟩
  · refine ⟨_, (seq_ok (dtor_null_run _ _)).trans (dtor_live_run _ _ p b hp hb),
      ?_, ?_, ?_⟩ <;> rfl
  · refine ⟨_, (seq_ok (dtor_live_run { m_size := B1.m_size, m_Data := B1.m_Data }
      { w with out := w.out ++ lit "Moved!\n" } p b hp hb)).trans (dtor_null_run _ _),
      ?_, ?_, ?_⟩ <;> rfl

/-- Moving from `demoString` in `demoWorld` and destroying both objects: the hypothesis of
the previous theorem holds there. -/
theorem C3_witness :
    Live demoWorld demoString ∧
    ∃ (p : Nat) (B2 B1' : String) (w1 : World), demoString.m_Data = some p ∧
      String.ctor_move demoString demoWorld = Outcome.ok (B2, B1') w1 ∧
      owned [B1', B2] = [p] ∧ w1.heap = demoWorld.heap ∧
      (∃ w2, String.dtor B1' w1 = Outcome.ok () w2 ∧
        w2.out = w1.out ++ lit "Destroyed!\n" ∧ w2.heap = w1.heap ∧ w2.trace = w1.trace) ∧
      (∃ w3, (String.dtor B1' >>= fun _ => String.dtor B2) w1 = Outcome.ok () w3 ∧
        w3.heap = demoWorld.heap.set p none ∧ w3.trace = demoWorld.trace ++ [MemEvent.free p] ∧
        w3.out = w1.out ++ lit "Destroyed!\n" ++ lit "Destroyed!\n") ∧
      (∃ w3, (String.dtor B2 >>= fun _ => String.dtor B1') w1 = Outcome.ok () w3 ∧
        w3.heap = demoWorld.heap.set p none ∧ w3.trace = demoWorld.trace ++ [MemEvent.free p] ∧
        w3.out = w1.out ++ lit "Destroyed!\n" ++ lit "Destroyed!\n") :=
  ⟨by decide, C3_moved_from_releases_nothing demoWorld demoString (by decide)⟩

/-- Claim C4. Copy-constructing `B2` from a live `B1` of size `n` returns normally. `B1` is
passed by reference to const, and its buffer `b` is the same block afterwards. `B2` has size
`n` and owns a new allocation `q` (an address the free store did not have before, the one
memory event being `alloc q (n+1)`), different from the allocation of `B1`, of `n+1` bytes
whose first `n` bytes are those of `b`. The output grows by exactly the line `Copied!`.
Afterwards an indexed write through either pointer, whether it succeeds or faults, leaves the
block of the other object as it was, and every write at an index up to `n` succeeds and
changes just that byte; destroying either object returns normally and leaves the other one
live on an unchanged block. -/
theorem C4_copy_is_deep (w : World) (B1 : String) (hlive : Live w B1) :
    ∃ (b : Block) (B2 : String) (q : Nat) (b2 : Block) (w1 : World),
      w.lookup B1.m_Data = some b ∧
      String.ctor_copy B1 w = Outcome.ok B2 w1 ∧
      w1.lookup B1.m_Data = some b ∧
      B2.m_size = B1.m_size ∧ B2.m_Data = some q ∧ B2.m_Data ≠ B1.m_Data ∧
      w.heap[q]? = none ∧ w1.trace = w.trace ++ [MemEvent.alloc q (B1.m_size + 1)] ∧
      w1.lookup B2.m_Data = some b2 ∧ b2.bytes.length = B1.m_size + 1 ∧
      b2.bytes.take B1.m_size = b.bytes.take B1.m_size ∧
      w1.out = w.out ++ lit "Copied!\n" ∧
      (∀ i c, (store B2.m_Data i c w1).world.lookup B1.m_Data = some b) ∧
      (∀ i c, (store B1.m_Data i c w1).world.lookup B2.m_Data = some b2) ∧
      (∀ i c, i ≤ B1.m_size → ∃ w2, store B2.m_Data i c w1 = Outcome.ok () w2 ∧
        (w2.lookup B2.m_Data).map Block.bytes = some (b2.bytes.set i c)) ∧
      (∀ i c, i ≤ B1.m_size → ∃ w2, store B1.m_Data i c w1 = Outcome.ok () w2 ∧
        (w2.lookup B1.m_Data).map Block.bytes = some (b.bytes.set i c)) ∧
      (∃ w2, String.dtor B2 w1 = Outcome.ok () w2 ∧ Live w2 B1 ∧
        w2.lookup B1.m_Data = some b) ∧
      (∃ w2, String.dtor B1 w1 = Outcome.ok () w2 ∧ Live w2 B2 ∧
        w2.lookup B2.m_Data = some b2) := by
  obtain ⟨p, b, hp, hb, hlen⟩ := live_iff.mp hlive
  obtain ⟨b2, w1, hb2, hrun, hheap, hout, htrace, -⟩ := ctor_copy_spec B1 p b w hp hb hlen
  have hlt : p < w.heap.length := heap_index_lt hb
  have hne : (some w.heap.length : Ptr) ≠ some p := by
    intro h; cases h; omega
  have hlen2 : b2.bytes.length = B1.m_size + 1 := by
    rw [hb2]; simp; omega
  have htake : b2.bytes.take B1.m_size = b.bytes.take B1.m_size := by
    rw [hb2, List.take_append_of_le_length (by simp; omega)]
    simp
  have hold : w1.lookup (some p) = some b := lookup_append_old w p b b2 hb w1 hheap
  have hnew : w1.lookup (some w.heap.length) = some b2 := lookup_append_new w b2 w1 hheap
  have hold1 : w1.heap[p]? = some (some b) := by
    rw [hheap, List.getElem?_append_left hlt, hb]
  have hnew1 : w1.heap[w.heap.length]? = some (some b2) := by
    rw [hheap]; simp
  refine ⟨b, _, w.heap.length, b2, w1, ?_, hrun, ?_, rfl, rfl, ?_, ?_, ?_, hnew, hlen2, htake,
    ?_, ?_, ?_, ?_, ?_, ?_, ?_⟩
  · rw [hp]; simp [World.lookup, hb]
  · rw [hp]; exact hold
  · rw [hp]; exact hne
  · simp
  · exact htrace
  · exact hout
  · intro i c
    rw [hp, lookup_store_ne _ _ i c w1 hne]; exact hold
  · intro i c
    rw [hp, lookup_store_ne _ _ i c w1 hne.symm]; exact hnew
  · intro i c hi
    exact store_run _ i c b2 w1 hnew1 (by omega)
  · intro i c hi
    rw [hp]
    exact store_run _ i c b w1 hold1 (by omega)
  · have hd := dtor_live_run { m_size := B1.m_size, m_Data := some w.heap.length } w1
      w.heap.length b2 rfl hnew1
    have hl := lookup_dtor_ne { m_size := B1.m_size, m_Data := some w.heap.length }
      (some p) w1 hne
    rw [hd] at hl
    refine ⟨_, hd, ?_, ?_⟩
    · exact live_of_lookup (by rw [hp]; exact hl.trans hold) hlen
    · rw [hp]; exact hl.trans hold
  · have hd := dtor_live_run B1 w1 p b hp hold1
    have hl := lookup_dtor_ne B1 (some w.heap.length) w1 (by rw [hp]; exact hne.symm)
    rw [hd] at hl
    refine ⟨_, hd, ?_, ?_⟩
    · exact live_of_lookup (hl.trans hnew) hlen2
    · exact hl.trans hnew

/-- The copy of `demoString` in `demoWorld`: the hypothesis of the previous theorem holds
there. -/
theorem C4_witness :
    Live demoWorld demoString ∧
    ∃ (b : Block) (B2 : String) (q : Nat) (b2 : Block) (w1 : World),
      demoWorld.lookup demoString.m_Data = some b ∧
      String.ctor_copy demoString demoWorld = Outcome.ok B2 w1 ∧
      w1.lookup demoString.m_Data = some b ∧
      B2.m_size = demoString.m_size ∧ B2.m_Data = some q ∧ B2.m_Data ≠ demoString.m_Data ∧
      demoWorld.heap[q]? = none ∧
      w1.trace = demoWorld.trace ++ [MemEvent.alloc q (demoString.m_size + 1)] ∧
      w1.lookup B2.m_Data = some b2 ∧ b2.bytes.length = demoString.m_size + 1 ∧
      b2.bytes.take demoString.m_size = b.bytes.take demoString.m_size ∧
      w1.out = demoWorld.out ++ lit "Copied!\n" ∧
      (∀ i c, (store B2.m_Data i c w1).world.lookup demoString.m_Data = some b) ∧
      (∀ i c, (store demoString.m_Data i c w1).world.lookup B2.m_Data = some b2) ∧
      (∀ i c, i ≤ demoString.m_size → ∃ w2, store B2.m_Data i c w1 = Outcome.ok () w2 ∧
        (w2.lookup B2.m_Data).map Block.bytes = some (b2.bytes.set i c)) ∧
      (∀ i c, i ≤ demoString.m_size →
        ∃ w2, store demoString.m_Data i c w1 = Outcome.ok () w2 ∧
        (w2.lookup demoString.m_Data).map Block.bytes = some (b.bytes.set i c)) ∧
      (∃ w2, String.dtor B2 w1 = Outcome.ok () w2 ∧ Live w2 demoString ∧
        w2.lookup demoString.m_Data = some b) ∧
      (∃ w2, String.dtor demoString w1 = Outcome.ok () w2 ∧ Live w2 B2 ∧
        w2.lookup B2.m_Data = some b2) :=
  ⟨by decide, C4_copy_is_deep demoWorld demoString (by decide)⟩

/-- Claim C5. For every text `T` without a zero byte, stored in an array as `T`, a zero
terminator and whatever follows: constructing a `String` from the array returns an object of
size `|T|` on a new allocation `a` holding `T` followed by the byte the allocation held at
index `|T|` when `new` returned it (no constructor writes that byte), and `print_data` on it
returns normally having written exactly `|T|+2` bytes: the bytes of `T` in order, that
byte, and a newline. -/
theorem C5_ctor_then_print (w : World) (s : Block) (T rest : List Byte)
    (hs : s.bytes = T ++ 0 :: rest) (hT : ∀ c ∈ T, c ≠ 0) :
    ∃ (t : String) (a : Nat) (w1 w2 : World),
      String.ctor s w = Outcome.ok t w1 ∧
      t.m_size = T.length ∧ t.m_Data = some a ∧ w.heap[a]? = none ∧
      (w1.lookup t.m_Data).map Block.bytes = some (T ++ [w.fresh a T.length]) ∧
      String.print_data t w1 = Outcome.ok () w2 ∧
      w2.out = w1.out ++ (T ++ [w.fresh a T.length] ++ [NL]) ∧
      (T ++ [w.fresh a T.length] ++ [NL]).length = T.length + 2 := by
  have hk : firstZero s.bytes = some T.length := by rw [hs]; exact firstZero_append T rest hT
  obtain ⟨b, w1, hb, hrun, hheap, -, -, -⟩ := ctor_spec s T.length w hk
  have hbytes : b.bytes = T ++ [w.fresh w.heap.length T.length] := by
    rw [hb, hs]; simp
  have hnew : w1.heap[w.heap.length]? = some (some b) := by rw [hheap]; simp
  have hlen : b.bytes.length = T.length + 1 := by rw [hbytes]; simp
  have hprint := print_data_run { m_size := T.length, m_Data := some w.heap.length }
    w.heap.length b w1 rfl hnew hlen
  refine ⟨_, w.heap.length, w1, _, hrun, rfl, rfl, by simp, ?_, hprint, ?_, by simp⟩
  · rw [lookup_append_new w b w1 hheap]; simp [hbytes]
  · simp [hbytes]

set_option maxRecDepth 8192 in

/-- The text `Hi` read from `demoText` in `demoWorld`: the hypotheses of the previous theorem
hold there. -/
theorem C5_witness :
    demoText.bytes = lit "Hi" ++ 0 :: [33, 0] ∧ (∀ c ∈ lit "Hi", c ≠ 0) ∧
    ∃ (t : String) (a : Nat) (w1 w2 : World),
      String.ctor demoText demoWorld = Outcome.ok t w1 ∧
      t.m_size = (lit "Hi").length ∧ t.m_Data = some a ∧ demoWorld.heap[a]? = none ∧
      (w1.lookup t.m_Data).map Block.bytes =
        some (lit "Hi" ++ [demoWorld.fresh a (lit "Hi").length]) ∧
      String.print_data t w1 = Outcome.ok () w2 ∧
      w2.out = w1.out ++ (lit "Hi" ++ [demoWorld.fresh a (lit "Hi").length] ++ [NL]) ∧
      (lit "Hi" ++ [demoWorld.fresh a (lit "Hi").length] ++ [NL]).length =
        (lit "Hi").length + 2 :=
  ⟨rfl, by decide, C5_ctor_then_print demoWorld demoText (lit "Hi") [33, 0] rfl (by decide)⟩

/-- Claim C6. The buffer invariant `Inv` (a non-null `m_Data` points to a live allocation of
exactly `m_size+1` bytes, whose first `m_size` bytes are the payload) holds

* for the object `String(const char*)` produces: the constructor returns whenever the array
  has a terminator, the object is live and its payload is the text before the terminator;
* for the object the copy constructor produces from a source satisfying the invariant, and
  for that source afterwards: it returns whenever the source is non-null, with equal payloads
  (from a null source it faults and produces no object);
* for the object the move constructor produces from a source satisfying the invariant, and
  for the emptied source: it always returns, and the new object has the payload of the source;
* hence for every `String` of every configuration a client can reach through the public
  members. -/
theorem C6_buffer_invariant :
    (∀ (w : World) (s : Block) (k : Nat), firstZero s.bytes = some k →
      ∃ (t : String) (w1 : World), String.ctor s w = Outcome.ok t w1 ∧
        Inv w1 t ∧ Live w1 t ∧ t.m_size = k ∧ t.payload w1 = some (s.bytes.take k)) ∧
    (∀ (w : World) (s : Block) (t : String) (w1 : World),
      String.ctor s w = Outcome.ok t w1 → Inv w1 t) ∧
    (∀ (w : World) (o : String), Inv w o → o.m_Data ≠ none →
      ∃ (t : String) (w1 : World), String.ctor_copy o w = Outcome.ok t w1 ∧
        Inv w1 t ∧ Live w1 t ∧ Inv w1 o ∧
        t.payload w1 = o.payload w ∧ o.payload w1 = o.payload w) ∧
    (∀ (w : World) (o t : String) (w1 : World), Inv w o →
      String.ctor_copy o w = Outcome.ok t w1 → Inv w1 t ∧ Inv w1 o) ∧
    (∀ (w : World) (o : String), Inv w o →
      ∃ (t o1 : String) (w1 : World), String.ctor_move o w = Outcome.ok (t, o1) w1 ∧
        Inv w1 t ∧ Inv w1 o1 ∧ t.payload w1 = o.payload w) ∧
    (∀ c : Config, Reachable c → ∀ s ∈ c.objs, Inv c.w s) := by
  refine ⟨?_, ?_, ?_, ?_, ?_, ?_⟩
  · intro w s k hk
    obtain ⟨b, w1, hb, hrun, hheap, -, -, -⟩ := ctor_spec s k w hk
    have hlt := firstZero_lt hk
    have hlen : b.bytes.length = k + 1 := by rw [hb]; simp; omega
    have hlive := live_fresh_object w w1 k b hheap hlen
    refine ⟨_, w1, hrun, fun _ => hlive, hlive, rfl, ?_⟩
    rw [payload_of_lookup (lookup_append_new w b w1 hheap), hb]
    simp [List.take_append_of_le_length, Nat.le_of_lt hlt]
  · intro w s t w1 h
    obtain ⟨k, b, hk, rfl, hb, hheap, -, -⟩ := ctor_ok_spec h
    have hlt := firstZero_lt hk
    exact fun _ => live_fresh_object w w1 k b hheap (by rw [hb]; simp; omega)
  · intro w o hinv hne
    obtain ⟨a, b, ha, hb, hlen⟩ := live_iff.mp (hinv hne)
    obtain ⟨b1, w1, hb1, hrun, hheap, -, -, -⟩ := ctor_copy_spec o a b w ha hb hlen
    have hlen1 : b1.bytes.length = o.m_size + 1 := by rw [hb1]; simp; omega
    have hlive := live_fresh_object w w1 o.m_size b1 hheap hlen1
    have hold : w1.lookup o.m_Data = some b := by
      rw [ha]; exact lookup_append_old w a b b1 hb w1 hheap
    have hold0 : w.lookup o.m_Data = some b := by
      rw [ha]; simp [World.lookup, hb]
    refine ⟨_, w1, hrun, fun _ => hlive, hlive, inv_append hinv hheap, ?_, ?_⟩
    · rw [payload_of_lookup (lookup_append_new w b1 w1 hheap), payload_of_lookup hold0, hb1]
      simp [List.take_append_of_le_length, hlen]
    · rw [payload_of_lookup hold, payload_of_lookup hold0]
  · intro w o t w1 hinv h
    obtain ⟨a, b, b1, -, -, hlen, rfl, hb1, hheap, -, -⟩ := ctor_copy_ok_spec hinv h
    exact ⟨fun _ => live_fresh_object w w1 o.m_size b1 hheap (by rw [hb1]; simp; omega),
      inv_append hinv hheap⟩
  · intro w o hinv
    refine ⟨_, _, _, ctor_move_run o w, ?_, fun hne => (hne rfl).elim, ?_⟩
    · exact inv_of_heap_eq rfl hinv
    · rfl
  · intro c hc s hs
    exact ((reachable_good hc).1 s hs).2

/-- The copy part of the previous theorem at `demoString` in `demoWorld`, a non-null source
that satisfies the invariant. -/
theorem C6_witness :
    Inv demoWorld demoString ∧ demoString.m_Data ≠ none ∧
    ∃ (t : String) (w1 : World), String.ctor_copy demoString demoWorld = Outcome.ok t w1 ∧
      Inv w1 t ∧ Live w1 t ∧ Inv w1 demoString ∧
      t.payload w1 = demoString.payload demoWorld ∧
      demoString.payload w1 = demoString.payload demoWorld :=
  ⟨by decide, by decide,
    C6_buffer_invariant.2.2.1 demoWorld demoString (by decide) (by decide)⟩

/-- Claim C7. For every live `String` `s`:

* `Entity(const String&)` copy-constructs the embedded buffer: it runs exactly as the copy
  constructor of `String` does, prints the one line `Copied!`, leaves the buffer of `s` as it
  was, and the embedded buffer is live on a new allocation;
* `Entity(String&&)` move-constructs the embedded buffer: it runs exactly as the move
  constructor of `String` does, prints the one line `Moved!` (so no `Copied!`), the embedded
  `m_Data` is the former `m_Data` of `s`, `s` is left with a null `m_Data`, and the free
  store and the memory trace are unchanged;
* `Entity::print_data` is `print_data` of the embedded buffer, in every world. -/
theorem C7_entity_construction (w : World) (s : String) (hlive : Live w s) :
    (∃ (e : Entity) (q : Nat) (w1 : World),
      Entity.ctor_copy s w = Outcome.ok e w1 ∧
      String.ctor_copy s w = Outcome.ok e.m_str w1 ∧
      w1.out = w.out ++ lit "Copied!\n" ∧
      e.m_str.m_size = s.m_size ∧ e.m_str.m_Data = some q ∧ w.heap[q]? = none ∧
      e.m_str.m_Data ≠ s.m_Data ∧ Live w1 e.m_str ∧
      w1.lookup s.m_Data = w.lookup s.m_Data ∧
      Entity.print_data e w1 = String.print_data e.m_str w1) ∧
    (∃ (e : Entity) (s1 : String) (w1 : World),
      Entity.ctor_move s w = Outcome.ok (e, s1) w1 ∧
      String.ctor_move s w = Outcome.ok (e.m_str, s1) w1 ∧
      w1.out = w.out ++ lit "Moved!\n" ∧
      e.m_str.m_size = s.m_size ∧ e.m_str.m_Data = s.m_Data ∧ s1.m_Data = none ∧
      w1.heap = w.heap ∧ w1.trace = w.trace ∧
      Entity.print_data e w1 = String.print_data e.m_str w1) ∧
    (∀ (e : Entity) (w0 : World), Entity.print_data e w0 = String.print_data e.m_str w0) := by
  obtain ⟨p, b, hp, hb, hlen⟩ := live_iff.mp hlive
  obtain ⟨b2, w1, hb2, hrun, hheap, hout, -, -⟩ := ctor_copy_spec s p b w hp hb hlen
  have hlt : p < w.heap.length := heap_index_lt hb
  refine ⟨⟨⟨_⟩, w.heap.length, w1, ?_, hrun, hout, rfl, rfl, by simp, ?_, ?_, ?_, rfl⟩,
    ⟨⟨_⟩, _, _, ?_, ctor_move_run s w, rfl, rfl, rfl, rfl, rfl, rfl, rfl⟩, fun _ _ => rfl⟩
  · unfold Entity.ctor_copy
    rw [seq_ok hrun]; rfl
  · rw [hp]; intro h; cases h; omega
  · refine live_of_lookup (lookup_append_new w b2 w1 hheap) ?_
    rw [hb2]; simp; omega
  · rw [hp, lookup_append_old w p b b2 hb w1 hheap]
    simp [World.lookup, hb]
  · unfold Entity.ctor_move
    rw [seq_ok (ctor_move_run s w)]; rfl

/-- Both `Entity` constructors applied to `demoString` in `demoWorld`: the hypothesis of the
previous theorem holds there. -/
theorem C7_witness :
    Live demoWorld demoString ∧
    (∃ (e : Entity) (q : Nat) (w1 : World),
      Entity.ctor_copy demoString demoWorld = Outcome.ok e w1 ∧
      String.ctor_copy demoString demoWorld = Outcome.ok e.m_str w1 ∧
      w1.out = demoWorld.out ++ lit "Copied!\n" ∧
      e.m_str.m_size = demoString.m_size ∧ e.m_str.m_Data = some q ∧ demoWorld.heap[q]? = none ∧
      e.m_str.m_Data ≠ demoString.m_Data ∧ Live w1 e.m_str ∧
      w1.lookup demoString.m_Data = demoWorld.lookup demoString.m_Data ∧
      Entity.print_data e w1 = String.print_data e.m_str w1) ∧
    (∃ (e : Entity) (s1 : String) (w1 : World),
      Entity.ctor_move demoString demoWorld = Outcome.ok (e, s1) w1 ∧
      String.ctor_move demoString demoWorld = Outcome.ok (e.m_str, s1) w1 ∧
      w1.out = demoWorld.out ++ lit "Moved!\n" ∧
      e.m_str.m_size = demoString.m_size ∧ e.m_str.m_Data = demoString.m_Data ∧ s1.m_Data = none ∧
      w1.heap = demoWorld.heap ∧ w1.trace = demoWorld.trace ∧
      Entity.print_data e w1 = String.print_data e.m_str w1) ∧
    (∀ (e : Entity) (w0 : World), Entity.print_data e w0 = String.print_data e.m_str w0) :=
  ⟨by decide, C7_entity_construction demoWorld demoString (by decide)⟩

/-- Claim C8. For every `String` with a non-null `m_Data` (allocation `a`) satisfying the
buffer invariant, `print_data` returns normally (so no indexed read takes the out-of-bounds
branch, nor any other faulting one), the indexed reads it performs are exactly those of the
indices `0, 1, ..., m_size` of `a`, each once and in increasing order, and every one of these
indices lies inside the allocation; the free store is unchanged. The hazard that remains is
the byte at index `m_size`: in an object built from a text or by copy it is the byte the
allocation held when `new` returned it. -/
theorem C8_print_reads_in_bounds (w : World) (s : String) (a : Nat)
    (ha : s.m_Data = some a) (hinv : Inv w s) :
    (∃ (b : Block) (w1 : World),
      w.lookup s.m_Data = some b ∧ b.bytes.length = s.m_size + 1 ∧
      String.print_data s w = Outcome.ok () w1 ∧
      w1.trace = w.trace ++ (List.range (s.m_size + 1)).map (MemEvent.read a) ∧
      (∀ i ∈ List.range (s.m_size + 1), i < b.bytes.length) ∧
      w1.out = w.out ++ b.bytes ++ [NL] ∧ w1.heap = w.heap) ∧
    (∃ (t : String) (q : Nat) (b1 : Block) (w1 : World),
      String.ctor_copy s w = Outcome.ok t w1 ∧ t.m_Data = some q ∧
      w1.lookup t.m_Data = some b1 ∧ b1.bytes[t.m_size]? = some (w.fresh q t.m_size)) ∧
    (∀ (txt : Block) (k : Nat), firstZero txt.bytes = some k →
      ∃ (t : String) (q : Nat) (b1 : Block) (w1 : World),
        String.ctor txt w = Outcome.ok t w1 ∧ t.m_Data = some q ∧
        w1.lookup t.m_Data = some b1 ∧ b1.bytes[t.m_size]? = some (w.fresh q t.m_size)) := by
  have hlive : Live w s := hinv (by rw [ha]; simp)
  obtain ⟨p, b, hp, hb, hlen⟩ := live_iff.mp hlive
  have hpa : p = a := by rw [hp] at ha; exact Option.some.inj ha
  subst hpa
  refine ⟨⟨b, _, ?_, hlen, print_data_run s p b w hp hb hlen, rfl, ?_, rfl, rfl⟩, ?_, ?_⟩
  · rw [hp]; simp [World.lookup, hb]
  · intro i hi
    rw [List.mem_range] at hi
    omega
  · obtain ⟨b1, w1, hb1, hrun, hheap, -, -, -⟩ := ctor_copy_spec s p b w hp hb hlen
    refine ⟨_, w.heap.length, b1, w1, hrun, rfl, lookup_append_new w b1 w1 hheap, ?_⟩
    have hl : (List.take s.m_size b.bytes).length = s.m_size := by
      rw [List.length_take]; omega
    rw [hb1]
    show (List.take s.m_size b.bytes ++ [w.fresh w.heap.length s.m_size])[s.m_size]? = _
    rw [List.getElem?_append_right (by omega), hl]
    simp
  · intro txt k hk
    obtain ⟨b1, w1, hb1, hrun, hheap, -, -, -⟩ := ctor_spec txt k w hk
    have hlt := firstZero_lt hk
    refine ⟨_, w.heap.length, b1, w1, hrun, rfl, lookup_append_new w b1 w1 hheap, ?_⟩
    have hl : (List.take k txt.bytes).length = k := by
      rw [List.length_take]; omega
    rw [hb1]
    show (List.take k txt.bytes ++ [w.fresh w.heap.length k])[k]? = _
    rw [List.getElem?_append_right (by omega), hl]
    simp

/-- Printing `demoString` in `demoWorld`: the hypotheses of the previous theorem hold
there. -/
theorem C8_witness :
    demoString.m_Data = some 0 ∧ Inv demoWorld demoString ∧
    ∃ (b : Block) (w1 : World),
      demoWorld.lookup demoString.m_Data = some b ∧
      b.bytes.length = demoString.m_size + 1 ∧
      String.print_data demoString demoWorld = Outcome.ok () w1 ∧
      w1.trace = demoWorld.trace ++
        (List.range (demoString.m_size + 1)).map (MemEvent.read 0) ∧
      (∀ i ∈ List.range (demoString.m_size + 1), i < b.bytes.length) ∧
      w1.out = demoWorld.out ++ b.bytes ++ [NL] ∧ w1.heap = demoWorld.heap :=
  ⟨rfl, by decide, (C8_print_reads_in_bounds demoWorld demoString 0 rfl (by decide)).1⟩

/-- Claim C9. The move constructor always returns and leaves the source with its size
unchanged and a null `m_Data`. For every `String` of a configuration a client can reach, the
loop of `print_data` runs `m_size+1` times, which is at least once (the `size_t` sum does not
wrap: every size comes from `strlen` of an array whose size fits in `size_t`); hence on an
object with a null `m_Data` `print_data` faults with a null read before anything is written
or read, i.e. on its first iteration, and `print_data` returns normally if and only if
`m_Data` is non-null. In particular, after moving from a live `String`, `print_data` faults
in this way on the source and returns normally on the new object. The last part states the
same for any `String` that satisfies the invariant and whose size is below the largest value
of `size_t`, reachable or not. -/
theorem C9_moved_from_print_faults :
    (∀ (w : World) (B1 : String), ∃ (B2 B1' : String) (w1 : World),
      String.ctor_move B1 w = Outcome.ok (B2, B1') w1 ∧
      B1'.m_size = B1.m_size ∧ B1'.m_Data = none) ∧
    (∀ c : Config, Reachable c → ∀ s ∈ c.objs,
      ((s.m_size + 1) % SIZE_MOD = s.m_size + 1 ∧ 1 ≤ (s.m_size + 1) % SIZE_MOD) ∧
      (s.m_Data = none → String.print_data s c.w = Outcome.fault Fault.null_deref c.w) ∧
      ((String.print_data s c.w).isOk = true ↔ s.m_Data ≠ none)) ∧
    (∀ (w : World) (B1 : String), Live w B1 → ∃ (B2 B1' : String) (w1 : World),
      String.ctor_move B1 w = Outcome.ok (B2, B1') w1 ∧
      String.print_data B1' w1 = Outcome.fault Fault.null_deref w1 ∧
      (String.print_data B2 w1).isOk = true) ∧
    (∀ (w : World) (s : String), s.m_size + 1 < SIZE_MOD → Inv w s →
      (s.m_Data = none → String.print_data s w = Outcome.fault Fault.null_deref w) ∧
      ((String.print_data s w).isOk = true ↔ s.m_Data ≠ none)) := by
  refine ⟨fun w B1 => ⟨_, _, _, ctor_move_run B1 w, rfl, rfl⟩, ?_, ?_,
    fun w s hsz hinv => ⟨fun hnull => print_data_null s w hnull hsz,
      print_data_ok_iff w s hsz hinv⟩⟩
  · intro c hc s hs
    obtain ⟨hsz, hinv⟩ := (reachable_good hc).1 s hs
    refine ⟨⟨Nat.mod_eq_of_lt hsz, ?_⟩, fun hnull => print_data_null s c.w hnull hsz,
      print_data_ok_iff c.w s hsz hinv⟩
    rw [Nat.mod_eq_of_lt hsz]; omega
  · intro w B1 hlive
    obtain ⟨a, b, ha, hb, hlen⟩ := live_iff.mp hlive
    have hsz : B1.m_size + 1 < SIZE_MOD := by have := b.fits; omega
    refine ⟨_, _, _, ctor_move_run B1 w, print_data_null _ _ rfl hsz, ?_⟩
    rw [print_data_run { m_size := B1.m_size, m_Data := B1.m_Data } a b
      { w with out := w.out ++ lit "Moved!\n" } ha hb hlen]
    rfl

/-- The reachable part of the previous theorem at the emptied source of `demoConfig`, a
configuration that a client reaches with one construction and one move. -/
theorem C9_witness :
    Reachable demoConfig ∧ ({ m_size := 5, m_Data := none } : String) ∈ demoConfig.objs ∧
    String.print_data { m_size := 5, m_Data := none } demoConfig.w =
      Outcome.fault Fault.null_deref demoConfig.w :=
  ⟨demoConfig_reachable, by decide,
    (C9_moved_from_print_faults.2.1 demoConfig demoConfig_reachable
      { m_size := 5, m_Data := none } (by decide)).2.1 rfl⟩

/-- Claim C10. Over the whole run of `main`, for every choice of the indeterminate bytes:
the number of `Destroyed!` lines equals the number of `Created!`, `Copied!` and `Moved!`
lines together; the one allocation made is released exactly once (the memory trace is one
`alloc`, the six reads, one `free`; replaying it never touches an allocation that is not
live and leaves nothing live; the free store ends with its single entry released); and the
buffer that `entity.print_data()` reads is live before and after the call. -/
theorem C10_main_is_balanced (fresh : Nat → Nat → Byte) :
    ∃ (e : Entity) (w1 w2 w5 : World),
      main_declare_entity (World.init fresh) = Outcome.ok e w1 ∧ Live w1 e.m_str ∧
      Entity.print_data e w1 = Outcome.ok () w2 ∧ Live w2 e.m_str ∧
      main (World.init fresh) = Outcome.ok 0 w5 ∧
      countLine "Destroyed!" w5.out =
        countLine "Created!" w5.out + countLine "Copied!" w5.out +
          countLine "Moved!" w5.out ∧
      w5.heap = [none] ∧
      w5.trace = [MemEvent.alloc 0 6, MemEvent.read 0 0, MemEvent.read 0 1,
        MemEvent.read 0 2, MemEvent.read 0 3, MemEvent.read 0 4, MemEvent.read 0 5,
        MemEvent.free 0] ∧
      replay w5.trace [] = some [] := by
  obtain ⟨b, hb, hdecl⟩ := main_declare_entity_run fresh
  have hlen : b.bytes.length = 5 + 1 := by rw [hb]; simp [lit]
  have hprint := print_data_run { m_size := 5, m_Data := some 0 } 0 b
    { heap := [some b], out := lit "Created!\n" ++ lit "Moved!\n" ++ lit "Destroyed!\n",
      trace := [MemEvent.alloc 0 6], fresh := fresh } rfl rfl hlen
  have hout := main_out_eq (fresh 0 5)
  have hcount := main_counts (fresh 0 5)
  refine ⟨_, _, _, _, hdecl, ?_, hprint, ?_, main_run fresh, ?_, rfl, rfl, ?_⟩
  · exact live_iff.mpr ⟨0, b, rfl, rfl, hlen⟩
  · exact live_iff.mpr ⟨0, b, rfl, rfl, hlen⟩
  · show countLine "Destroyed!" (_ ++ _) = countLine "Created!" (_ ++ _) +
      countLine "Copied!" (_ ++ _) + countLine "Moved!" (_ ++ _)
    rw [hout, hcount.1, hcount.2.1, hcount.2.2.1, hcount.2.2.2]
  · show replay [MemEvent.alloc 0 6, MemEvent.read 0 0, MemEvent.read 0 1,
      MemEvent.read 0 2, MemEvent.read 0 3, MemEvent.read 0 4, MemEvent.read 0 5,
      MemEvent.free 0] [] = some []
    decide

end MoveCpp
